import Mathlib

/-!
Shallow embedding of the buffer-pool-manager repository:
extendible hash table, LRU-K replacer, and buffer pool manager,
translated from the C++ sources, together with proofs of the
specification claims about them.

Modelling conventions:
* `std::unordered_map` becomes an association list with no duplicate
  keys; iteration order of the C++ map is unspecified, so all proved
  selection properties are order-robust (stated via minimality).
* `frame_id_t` and `page_id_t` are `int32_t` in the source; both are
  modelled as `Int` (the `-1` sentinels are load-bearing).
* `shared_ptr<Bucket>` identity is modelled by an index into a pool of
  buckets; two directory slots alias exactly when they hold the same
  pool index.
* The unbounded `while` loop in `ExtendibleHashTable::Insert` is
  modelled with fuel; it can genuinely diverge in C++ (e.g. repeated
  insertion of a key whose bucket can never separate), so fuelled
  divergence returns `none`.
* Disk traffic is recorded in an explicit `writes` trace so that
  "a write occurred" is statable.
-/

namespace DBModel

/-- Association-list lookup, modelling `std::unordered_map::find` /
`operator[]` reads. Returns the value of the first matching key. -/
def alookup {α : Type} (l : List (Int × α)) (k : Int) : Option α :=
  match l with
  | [] => none
  | (k2, v) :: rest => if k2 = k then some v else alookup rest k

/-- Association-list erase of the first occurrence of a key,
modelling `std::unordered_map::erase`. -/
def aerase {α : Type} (l : List (Int × α)) (k : Int) : List (Int × α) :=
  match l with
  | [] => []
  | (k2, v) :: rest => if k2 = k then rest else (k2, v) :: aerase rest k

/-- Association-list insert-or-assign, modelling
`std::unordered_map::operator[] = v`. -/
def aupdate {α : Type} (l : List (Int × α)) (k : Int) (v : α) : List (Int × α) :=
  match l with
  | [] => [(k, v)]
  | (k2, w) :: rest => if k2 = k then (k2, v) :: rest else (k2, w) :: aupdate rest k v

/-- Overwrite the value of the first occurrence of a key, leaving the
list unchanged if the key is absent (models the in-place `kv.second =
value` upsert loop of `ExtendibleHashTable::Insert`). -/
def aset {α : Type} (l : List (Int × α)) (k : Int) (v : α) : List (Int × α) :=
  match l with
  | [] => []
  | (k2, w) :: rest => if k2 = k then (k2, v) :: rest else (k2, w) :: aset rest k v

/-- The keys of an association list. -/
def akeys {α : Type} (l : List (Int × α)) : List Int := l.map Prod.fst

/-! ## LRU-K replacer (`lru_k_replacer.cpp`) -/

/-- State of `LRUKReplacer`: logical clock `current_timestamp_`, the
capacity `replacer_size_`, the constant `k_`, the history-phase map
`hist_map_` (frame to list of at most K access timestamps, oldest
first), the steady-phase map `last_map_` (frame to most-recent
timestamp), and `evict_flag_` (only ever stores `true`, so a set). -/
structure Replacer where
  current_timestamp : Nat
  replacer_size : Nat
  k : Nat
  hist_map : List (Int × List Nat)
  last_map : List (Int × Nat)
  evict_flag : List Int
deriving Repr, DecidableEq

/-- `LRUKReplacer::LRUKReplacer(num_frames, k)`. -/
def mkReplacer (num_frames k : Nat) : Replacer :=
  { current_timestamp := 0, replacer_size := num_frames, k := k,
    hist_map := [], last_map := [], evict_flag := [] }

/-- The scanning loops of `LRUKReplacer::Evict`: walk the entries,
keeping the entry whose value is strictly smaller than the best so
far, restricted to frames whose evictable flag is set. -/
def scanMin (flag : List Int) (entries : List (Int × Nat)) (acc : Int × Nat) : Int × Nat :=
  match entries with
  | [] => acc
  | (f, v) :: rest => scanMin flag rest (if f ∈ flag ∧ v < acc.2 then (f, v) else acc)

/-- `LRUKReplacer::Evict`.  Bumps the clock, returns `none` when both
maps are empty; otherwise scans the history map (key: front timestamp)
for the evictable entry with the smallest value starting from the
sentinel `(-1, current_timestamp_)`, evicts it if the chosen id is a
history key, else scans the steady map the same way and evicts unless
the chosen id is still the `-1` sentinel. -/
def evict (r : Replacer) : Option Int × Replacer :=
  let r1 := { r with current_timestamp := r.current_timestamp + 1 }
  if r1.hist_map = [] ∧ r1.last_map = [] then (none, r1)
  else
    let p1 := scanMin r1.evict_flag (r1.hist_map.map (fun kv => (kv.1, kv.2.headD 0)))
      (-1, r1.current_timestamp)
    if (alookup r1.hist_map p1.1).isSome then
      (some p1.1, { r1 with hist_map := aerase r1.hist_map p1.1,
                            evict_flag := r1.evict_flag.erase p1.1 })
    else
      let p2 := scanMin r1.evict_flag r1.last_map p1
      if p2.1 = -1 then (none, r1)
      else (some p2.1, { r1 with last_map := aerase r1.last_map p2.1,
                                 evict_flag := r1.evict_flag.erase p2.1 })

/-- `LRUKReplacer::RecordAccess`.  Bumps the clock; ignores frames with
`frame_id >= (int)replacer_size_`; updates the steady timestamp when
the frame is in `last_map_`; otherwise appends the new timestamp to the
history and, when the history length reaches `k_`, moves the frame to
`last_map_` with the latest timestamp and erases the history. -/
def recordAccess (r : Replacer) (frame_id : Int) : Replacer :=
  let r1 := { r with current_timestamp := r.current_timestamp + 1 }
  if (r1.replacer_size : Int) ≤ frame_id then r1
  else if (alookup r1.last_map frame_id).isSome then
    { r1 with last_map := aupdate r1.last_map frame_id r1.current_timestamp }
  else
    let h := (alookup r1.hist_map frame_id).getD [] ++ [r1.current_timestamp]
    if r1.k ≤ h.length then
      { r1 with last_map := aupdate r1.last_map frame_id r1.current_timestamp,
                hist_map := aerase r1.hist_map frame_id }
    else
      { r1 with hist_map := aupdate r1.hist_map frame_id h }

/-- `LRUKReplacer::SetEvictable`.  Bumps the clock; a set-to-true on an
untracked frame is ignored; otherwise sets or erases the flag. -/
def setEvictable (r : Replacer) (frame_id : Int) (se : Bool) : Replacer :=
  let r1 := { r with current_timestamp := r.current_timestamp + 1 }
  if se ∧ (alookup r1.hist_map frame_id).isNone ∧ (alookup r1.last_map frame_id).isNone then
    r1
  else if se then
    { r1 with evict_flag :=
        if frame_id ∈ r1.evict_flag then r1.evict_flag else r1.evict_flag ++ [frame_id] }
  else
    { r1 with evict_flag := r1.evict_flag.erase frame_id }

/-- `LRUKReplacer::Remove`: unconditionally drop all tracking state and
the evictable flag, bumping the clock. -/
def removeFrame (r : Replacer) (frame_id : Int) : Replacer :=
  { r with current_timestamp := r.current_timestamp + 1,
           hist_map := aerase r.hist_map frame_id,
           last_map := aerase r.last_map frame_id,
           evict_flag := r.evict_flag.erase frame_id }

/-- `LRUKReplacer::Size`: the number of evictable frames. -/
def replacerCount (r : Replacer) : Nat := r.evict_flag.length

/-- A sample replacer state (3 frames, K = 2, access pattern
0,1,2,0,1, all frames evictable): frame 2 is in the history phase,
frames 0 and 1 in the steady phase. -/
def sampleReplacer : Replacer :=
  let r := mkReplacer 3 2
  let r := recordAccess r 0
  let r := recordAccess r 1
  let r := recordAccess r 2
  let r := recordAccess r 0
  let r := recordAccess r 1
  let r := setEvictable r 0 true
  let r := setEvictable r 1 true
  setEvictable r 2 true

/-! ## Extendible hash table (`extendible_hash_table.cpp`)

Instantiated, as in the buffer pool manager, at `K = page_id_t`
(`Int`) and `V = frame_id_t` (`Int`).  The `std::hash<K>` function is
a parameter `h : Int → Nat` of every operation.  Buckets live in a
pool (`pool`); `dir` holds pool indices, so `dir_[i] == dir_[j]`
(shared-pointer identity) becomes equality of pool indices. -/

/-- A `Bucket`: its `depth_` (local depth) and entry list `cell_`.
The shared capacity `size_` (`bucket_size_`) is kept in the table. -/
structure Bucket where
  depth : Nat
  cell : List (Int × Int)
deriving Repr, DecidableEq

/-- The default bucket used to totalise out-of-range pool reads. -/
def emptyBucket : Bucket := { depth := 0, cell := [] }

/-- State of `ExtendibleHashTable`. -/
structure HTable where
  bucket_size : Nat
  global_depth : Nat
  bucket_cnt : Nat
  dir : List Nat
  pool : List Bucket
deriving Repr, DecidableEq

/-- `ExtendibleHashTable::ExtendibleHashTable(bucket_size)`: one empty
bucket of depth 0, directory of length 1 pointing at it. -/
def mkTable (bucket_size : Nat) : HTable :=
  { bucket_size := bucket_size, global_depth := 0, bucket_cnt := 1,
    dir := [0], pool := [emptyBucket] }

/-- `IndexOf(key)`: the low `global_depth_` bits of the hash,
`hash(key) & ((1 << global_depth_) - 1)`. -/
def indexOf (h : Int → Nat) (t : HTable) (key : Int) : Nat :=
  h key % 2 ^ t.global_depth

/-- The pool index stored in directory slot `i`. -/
def dirSlot (t : HTable) (i : Nat) : Nat := t.dir.getD i 0

/-- The bucket referenced by directory slot `i`. -/
def bucketAt (t : HTable) (i : Nat) : Bucket := t.pool.getD (dirSlot t i) emptyBucket

/-- `Bucket::Insert`: refuse when the cell already holds `size_`
entries (the return value is discarded by the split loop), else
append. -/
def bucketInsert (bs : Nat) (cell : List (Int × Int)) (key v : Int) : List (Int × Int) :=
  if bs ≤ cell.length then cell else cell ++ [(key, v)]

/-- `ExtendibleHashTable::Find`: linear scan of the single bucket at
`dir_[IndexOf(key)]`. -/
def tableFind (h : Int → Nat) (t : HTable) (key : Int) : Option Int :=
  alookup (bucketAt t (indexOf h t key)).cell key

/-- `ExtendibleHashTable::Remove`: erase the first occurrence in the
bucket at `dir_[IndexOf(key)]`; report whether a key was present. -/
def tableRemove (h : Int → Nat) (t : HTable) (key : Int) : Bool × HTable :=
  let i := indexOf h t key
  let b := bucketAt t i
  ((alookup b.cell key).isSome,
   { t with pool := t.pool.set (dirSlot t i) { b with cell := aerase b.cell key } })

/-- Directory doubling inside `Insert`: `dir_.resize(old << 1)`
followed by `dir_[i + old] = dir_[i]`, and `++global_depth_`. -/
def doubleDir (t : HTable) : HTable :=
  { t with global_depth := t.global_depth + 1, dir := t.dir ++ t.dir }

/-- The redistribution loop of a split: each entry of the old cell is
`Bucket::Insert`ed into the one-bucket when bit `depth` of its hash is
set, else into the zero-bucket. -/
def splitCells (h : Int → Nat) (bs : Nat) (depth : Nat) (cell : List (Int × Int))
    (acc : List (Int × Int) × List (Int × Int)) : List (Int × Int) × List (Int × Int) :=
  match cell with
  | [] => acc
  | kv :: rest =>
      splitCells h bs depth rest
        (if Nat.testBit (h kv.1) depth then (acc.1, bucketInsert bs acc.2 kv.1 kv.2)
         else (bucketInsert bs acc.1 kv.1 kv.2, acc.2))

/-- The rewiring loop of a split: every directory slot that references
the old bucket `bIdx` is repointed to `oIdx` when bit `d` of the slot
index is set (`i & split_mask`), else to `zIdx`; other slots keep
their reference. -/
def splitRewire (dir : List Nat) (bIdx zIdx oIdx d : Nat) : List Nat :=
  (List.range dir.length).map (fun i =>
    if dir.getD i 0 = bIdx then (if Nat.testBit i d then oIdx else zIdx) else dir.getD i 0)

/-- One iteration of the overflow loop in `ExtendibleHashTable::Insert`
(lines 73-98): fetch the full bucket, double the directory when its
local depth equals the global depth, create the two successor buckets
of depth `old + 1`, redistribute the entries by bit `m = 1 <<
old_depth` of their hash, bump `bucket_cnt_`, and repoint every
directory slot that referenced the old bucket according to bit `m` of
the slot index. -/
def splitStep (h : Int → Nat) (t : HTable) (key : Int) : HTable :=
  let bIdx := dirSlot t (indexOf h t key)
  let bucket := t.pool.getD bIdx emptyBucket
  let t1 := if bucket.depth = t.global_depth then doubleDir t else t
  let cells := splitCells h t.bucket_size bucket.depth bucket.cell ([], [])
  { bucket_size := t.bucket_size, global_depth := t1.global_depth,
    bucket_cnt := t.bucket_cnt + 1,
    dir := splitRewire t1.dir bIdx t1.pool.length (t1.pool.length + 1) bucket.depth,
    pool := t1.pool ++ [{ depth := bucket.depth + 1, cell := cells.1 },
                        { depth := bucket.depth + 1, cell := cells.2 }] }

/-- The fuelled overflow loop `while (dir_[IndexOf(key)]->IsFull())`.
`IsFull` is the exact-equality test `cell_.size() == size_`.  Fuel
exhaustion (`none`) models divergence of the C++ loop. -/
def insertLoop (h : Int → Nat) (fuel : Nat) (t : HTable) (key : Int) : Option HTable :=
  if (bucketAt t (indexOf h t key)).cell.length = t.bucket_size then
    match fuel with
    | 0 => none
    | fuel2 + 1 => insertLoop h fuel2 (splitStep h t key) key
  else some t

/-- `ExtendibleHashTable::Insert`: run the overflow loop, then either
overwrite the value of an existing key in the target bucket (upsert)
or append the new entry via `Bucket::Insert`. -/
def tableInsert (h : Int → Nat) (fuel : Nat) (t : HTable) (key v : Int) : Option HTable :=
  match insertLoop h fuel t key with
  | none => none
  | some t1 =>
      let pos := indexOf h t1 key
      let target := bucketAt t1 pos
      if (alookup target.cell key).isSome then
        let b2 : Bucket := { target with cell := aset target.cell key v }
        some { t1 with pool := t1.pool.set (dirSlot t1 pos) b2 }
      else
        let b2 : Bucket := { target with cell := bucketInsert t1.bucket_size target.cell key v }
        some { t1 with pool := t1.pool.set (dirSlot t1 pos) b2 }

/-- A client operation on the hash table. -/
inductive TOp where
  | ins (fuel : Nat) (k v : Int)
  | rem (k : Int)
  | lookup (k : Int)
deriving Repr, DecidableEq

/-- Apply one table operation (`Find` does not change the state). -/
def applyTOp (h : Int → Nat) (t : HTable) : TOp → Option HTable
  | .ins fuel k v => tableInsert h fuel t k v
  | .rem k => some (tableRemove h t k).2
  | .lookup _ => some t

/-- Run a sequence of table operations from a fresh table. -/
def runTable (h : Int → Nat) (bs : Nat) (ops : List TOp) : Option HTable :=
  ops.foldl (fun acc op => acc.bind (fun t => applyTOp h t op)) (some (mkTable bs))

/-- A concrete hash function (the identity on the non-negative keys
used by the concrete examples), standing in for `std::hash<int>`. -/
def idHash (k : Int) : Nat := k.toNat

/-- Replace the entry list of the bucket at directory slot `pos`
(abbreviation for the final write-back of `Insert` and `Remove`). -/
def setBucketCell (t : HTable) (pos : Nat) (cell : List (Int × Int)) : HTable :=
  { t with pool := t.pool.set (dirSlot t pos) { bucketAt t pos with cell := cell } }

/-- A reachable table (bucket size 2, `idHash`, keys 0, 2, 4) with two
completed splits; used to witness the directory invariant. -/
def c3wit : HTable :=
  { bucket_size := 2, global_depth := 2, bucket_cnt := 3,
    dir := [3, 2, 4, 2],
    pool := [{ depth := 0, cell := [(0, 10), (2, 11)] },
             { depth := 1, cell := [(0, 10), (2, 11)] },
             { depth := 1, cell := [] },
             { depth := 2, cell := [(0, 10), (4, 12)] },
             { depth := 2, cell := [(2, 11)] }] }

/-- A reachable table whose single bucket is full and holds key 0;
inserting key 0 again forces a split before the upsert. -/
def c4tab : HTable :=
  { bucket_size := 2, global_depth := 0, bucket_cnt := 1, dir := [0],
    pool := [{ depth := 0, cell := [(0, 10), (1, 11)] }] }

/-- A table whose single bucket holds key 0 and is not full. -/
def c4small : HTable :=
  { bucket_size := 2, global_depth := 0, bucket_cnt := 1, dir := [0],
    pool := [{ depth := 0, cell := [(0, 10)] }] }

/-- The directory-structure invariant of claim C3: the directory has
`2^global_depth` slots, every slot references a pool bucket, every
referenced bucket has `local_depth ≤ global_depth`, and two slots
reference the same bucket exactly when their indices agree modulo
`2^local_depth` of that bucket. -/
def DirInv (t : HTable) : Prop :=
  t.dir.length = 2 ^ t.global_depth ∧
  (∀ i < t.dir.length, dirSlot t i < t.pool.length) ∧
  (∀ i < t.dir.length, (bucketAt t i).depth ≤ t.global_depth) ∧
  (∀ i < t.dir.length, ∀ j < t.dir.length,
      (dirSlot t i = dirSlot t j ↔
        i % 2 ^ (bucketAt t i).depth = j % 2 ^ (bucketAt t i).depth))

instance (t : HTable) : Decidable (DirInv t) := by
  unfold DirInv; infer_instance

/-! ## Buffer pool manager (`buffer_pool_manager_instance.cpp`)

The disk manager is modelled as an association list `disk` (page id to
page data) plus a `writes` trace recording each `WritePage` call, so
that "a disk write occurred" is statable.  Page data is abstracted to
a single `Nat` token (`ResetMemory` writes `0`). -/

/-- A `Page` frame: resident page id (or `INVALID_PAGE_ID`),
`pin_count_`, `is_dirty_`, and the data buffer. -/
structure Page where
  page_id : Int
  pin_count : Int
  is_dirty : Bool
  data : Nat
deriving Repr, DecidableEq

/-- `INVALID_PAGE_ID` sentinel. -/
def INVALID_PAGE_ID : Int := -1

/-- A default-constructed `Page`. -/
def defaultPage : Page :=
  { page_id := INVALID_PAGE_ID, pin_count := 0, is_dirty := false, data := 0 }

/-- State of `BufferPoolManagerInstance` plus the disk it talks to. -/
structure BPM where
  pool_size : Nat
  pages : List Page
  page_table : HTable
  replacer : Replacer
  free_list : List Int
  next_page_id : Int
  disk : List (Int × Nat)
  writes : List (Int × Nat)
deriving Repr, DecidableEq

/-- `BufferPoolManagerInstance::BufferPoolManagerInstance`: all-default
frames, a `bucket_size_ = 4` page table, an LRU-K replacer over
`pool_size` frames, and a free list holding every frame in order. -/
def mkBPM (pool_size replacer_k : Nat) : BPM :=
  { pool_size := pool_size,
    pages := List.replicate pool_size defaultPage,
    page_table := mkTable 4,
    replacer := mkReplacer pool_size replacer_k,
    free_list := (List.range pool_size).map Int.ofNat,
    next_page_id := 0, disk := [], writes := [] }

/-- Read the frame `pages_[frame]`. -/
def getPage (s : BPM) (frame : Int) : Page := s.pages.getD frame.toNat defaultPage

/-- Write the frame `pages_[frame]`. -/
def setPage (s : BPM) (frame : Int) (p : Page) : BPM :=
  { s with pages := s.pages.set frame.toNat p }

/-- `DiskManager::WritePage`: update the disk image and log the write. -/
def writePage (s : BPM) (pid : Int) (d : Nat) : BPM :=
  { s with disk := aupdate s.disk pid d, writes := s.writes ++ [(pid, d)] }

/-- `DiskManager::ReadPage` (an unwritten page reads as zeroes). -/
def readPage (s : BPM) (pid : Int) : Nat := (alookup s.disk pid).getD 0

/-- `AllocatePage`: return `next_page_id_++`. -/
def allocatePage (s : BPM) : Int × BPM :=
  (s.next_page_id, { s with next_page_id := s.next_page_id + 1 })

/-- The frame-acquisition prelude shared verbatim by `NewPgImp` (lines
51-74) and `FetchPgImp` (lines 115-134): take the front of the free
list if non-empty; otherwise ask the replacer for a victim (`none`
with the clock-bumped replacer when it has none), and if the victim
frame carries a resident page, write it back iff dirty, remove its
page-table mapping, and clear its replacer record. -/
def pickFrame (h : Int → Nat) (s : BPM) : Option Int × BPM :=
  match s.free_list with
  | frame :: rest => (some frame, { s with free_list := rest })
  | [] =>
      match evict s.replacer with
      | (none, r2) => (none, { s with replacer := r2 })
      | (some frame, r2) =>
          let s2 := { s with replacer := r2 }
          let victim := getPage s2 frame
          if victim.page_id = INVALID_PAGE_ID then (some frame, s2)
          else
            let s3 := if victim.is_dirty then
                setPage (writePage s2 victim.page_id victim.data) frame
                  { victim with is_dirty := false }
              else s2
            let s4 := { s3 with page_table := (tableRemove h s3.page_table victim.page_id).2 }
            (some frame, { s4 with replacer := removeFrame s4.replacer frame })

/-- `NewPgImp`: pick a frame (failure returns a null page), allocate a
fresh page id, reset the frame (`pin_count = 1`, clean, zeroed data),
insert the mapping, record an access and mark the frame non-evictable.
The result is `none` only on page-table fuel exhaustion. -/
def newPage (h : Int → Nat) (fuel : Nat) (s : BPM) : Option (Option Int × BPM) :=
  match pickFrame h s with
  | (none, s1) => some (none, s1)
  | (some frame, s1) =>
      let a := allocatePage s1
      let s3 := setPage a.2 frame
        { page_id := a.1, pin_count := 1, is_dirty := false, data := 0 }
      match tableInsert h fuel s3.page_table a.1 frame with
      | none => none
      | some pt =>
          let s4 := { s3 with page_table := pt }
          let r2 := setEvictable (recordAccess s4.replacer frame) frame false
          some (some a.1, { s4 with replacer := r2 })

/-- `FetchPgImp`: on a page-table hit, bump the pin count, record an
access and mark non-evictable; on a miss, pick a frame (failure
returns a null page), read the page from disk into it with
`pin_count = 1`, clean, install the mapping, record an access and mark
non-evictable.  `Bool` is success of the call. -/
def fetchPage (h : Int → Nat) (fuel : Nat) (s : BPM) (pid : Int) : Option (Bool × BPM) :=
  match tableFind h s.page_table pid with
  | some frame =>
      let page := getPage s frame
      let s1 := setPage s frame { page with pin_count := page.pin_count + 1 }
      let r2 := setEvictable (recordAccess s1.replacer frame) frame false
      some (true, { s1 with replacer := r2 })
  | none =>
      match pickFrame h s with
      | (none, s1) => some (false, s1)
      | (some frame, s1) =>
          let s2 := setPage s1 frame
            { page_id := pid, pin_count := 1, is_dirty := false, data := readPage s1 pid }
          match tableInsert h fuel s2.page_table pid frame with
          | none => none
          | some pt =>
              let s3 := { s2 with page_table := pt }
              let r2 := setEvictable (recordAccess s3.replacer frame) frame false
              some (true, { s3 with replacer := r2 })

/-- `UnpinPgImp`: fail on a missing page or non-positive pin count;
otherwise decrement the pin count, OR the `is_dirty` argument into the
dirty flag, and mark the frame evictable when the pin count reaches
zero. -/
def unpinPage (h : Int → Nat) (s : BPM) (pid : Int) (is_dirty : Bool) : Bool × BPM :=
  match tableFind h s.page_table pid with
  | none => (false, s)
  | some frame =>
      let page := getPage s frame
      if page.pin_count ≤ 0 then (false, s)
      else
        let page1 := { page with pin_count := page.pin_count - 1,
                                 is_dirty := page.is_dirty || is_dirty }
        let s1 := setPage s frame page1
        if page1.pin_count = 0 then
          (true, { s1 with replacer := setEvictable s1.replacer frame true })
        else (true, s1)

/-- `FlushPgImp`: fail iff the page is not resident; otherwise write
the frame to disk unconditionally and clear the dirty flag. -/
def flushPage (h : Int → Nat) (s : BPM) (pid : Int) : Bool × BPM :=
  match tableFind h s.page_table pid with
  | none => (false, s)
  | some frame =>
      let page := getPage s frame
      (true, setPage (writePage s pid page.data) frame { page with is_dirty := false })

/-- `FlushAllPgsImp`: write every frame with a valid page id to disk
and clear its dirty flag. -/
def flushAll (s : BPM) : BPM :=
  (List.range s.pool_size).foldl (fun s2 i =>
    let page := getPage s2 (Int.ofNat i)
    if page.page_id = INVALID_PAGE_ID then s2
    else setPage (writePage s2 page.page_id page.data) (Int.ofNat i)
           { page with is_dirty := false }) s

/-- `DeletePgImp`: vacuous success on a missing page; failure on a
pinned page; otherwise write back iff dirty, remove the page-table
entry and the replacer record, reset the frame, and append it to the
free list. -/
def deletePage (h : Int → Nat) (s : BPM) (pid : Int) : Bool × BPM :=
  match tableFind h s.page_table pid with
  | none => (true, s)
  | some frame =>
      let page := getPage s frame
      if 0 < page.pin_count then (false, s)
      else
        let s1 := if page.is_dirty then
            setPage (writePage s page.page_id page.data) frame { page with is_dirty := false }
          else s
        let s2 := { s1 with page_table := (tableRemove h s1.page_table pid).2,
                            replacer := removeFrame s1.replacer frame }
        let s3 := setPage s2 frame defaultPage
        (true, { s3 with free_list := s3.free_list ++ [frame] })

/-- A client operation on the manager. -/
inductive MOp where
  | newP (fuel : Nat)
  | fetch (fuel : Nat) (pid : Int)
  | unpin (pid : Int) (d : Bool)
  | flush (pid : Int)
  | flushAllOp
  | del (pid : Int)
deriving Repr, DecidableEq

/-- Apply one manager operation. -/
def applyMOp (h : Int → Nat) (s : BPM) : MOp → Option BPM
  | .newP fuel => (newPage h fuel s).map Prod.snd
  | .fetch fuel pid => (fetchPage h fuel s pid).map Prod.snd
  | .unpin pid d => some (unpinPage h s pid d).2
  | .flush pid => some (flushPage h s pid).2
  | .flushAllOp => some (flushAll s)
  | .del pid => some (deletePage h s pid).2

/-- Run a sequence of manager operations from a fresh buffer pool. -/
def runBPM (h : Int → Nat) (ps k : Nat) (ops : List MOp) : Option BPM :=
  ops.foldl (fun acc op => acc.bind (fun s => applyMOp h s op)) (some (mkBPM ps k))

/-- The buffer pool state reached from a fresh 2-frame, K = 2 pool by
`NewPage` (page 0 resident in frame 0, pinned once). -/
def c7s : BPM :=
  { pool_size := 2,
    pages := [{ page_id := 0, pin_count := 1, is_dirty := false, data := 0 },
              { page_id := -1, pin_count := 0, is_dirty := false, data := 0 }],
    page_table := { bucket_size := 4, global_depth := 0, bucket_cnt := 1,
                    dir := [0], pool := [{ depth := 0, cell := [(0, 0)] }] },
    replacer := { current_timestamp := 2, replacer_size := 2, k := 2,
                  hist_map := [(0, [1])], last_map := [], evict_flag := [] },
    free_list := [1], next_page_id := 1, disk := [], writes := [] }

/-- The state reached from a fresh 2-frame pool by `NewPage` then
`UnpinPage(0, true)` (page 0 unpinned, dirty, evictable). -/
def c8s : BPM :=
  { pool_size := 2,
    pages := [{ page_id := 0, pin_count := 0, is_dirty := true, data := 0 },
              { page_id := -1, pin_count := 0, is_dirty := false, data := 0 }],
    page_table := { bucket_size := 4, global_depth := 0, bucket_cnt := 1,
                    dir := [0], pool := [{ depth := 0, cell := [(0, 0)] }] },
    replacer := { current_timestamp := 3, replacer_size := 2, k := 2,
                  hist_map := [(0, [1])], last_map := [], evict_flag := [0] },
    free_list := [1], next_page_id := 1, disk := [], writes := [] }

/-- The state reached from a fresh 2-frame pool by two `NewPage`s:
both frames pinned, free list empty, nothing evictable. -/
def c10s : BPM :=
  { pool_size := 2,
    pages := [{ page_id := 0, pin_count := 1, is_dirty := false, data := 0 },
              { page_id := 1, pin_count := 1, is_dirty := false, data := 0 }],
    page_table := { bucket_size := 4, global_depth := 0, bucket_cnt := 1,
                    dir := [0], pool := [{ depth := 0, cell := [(0, 0), (1, 1)] }] },
    replacer := { current_timestamp := 4, replacer_size := 2, k := 2,
                  hist_map := [(0, [1]), (1, [3])], last_map := [], evict_flag := [] },
    free_list := [], next_page_id := 2, disk := [], writes := [] }

/-- The invariant of claim C2: a pinned frame is never evictable. -/
def PinEvictInv (s : BPM) : Prop :=
  ∀ f : Nat, f < s.pages.length → 0 < (s.pages.getD f defaultPage).pin_count →
    (Int.ofNat f) ∉ s.replacer.evict_flag

instance (s : BPM) : Decidable (PinEvictInv s) := by
  unfold PinEvictInv; infer_instance

/-- All frame ids stored as page-table values are non-negative. -/
def TableValsNonneg (t : HTable) : Prop :=
  ∀ b ∈ t.pool, ∀ kv ∈ b.cell, 0 ≤ kv.2

instance (t : HTable) : Decidable (TableValsNonneg t) := by
  unfold TableValsNonneg; infer_instance

/-- The strengthened induction invariant behind claim C2: the
pin/evictable coupling, plus the bookkeeping facts that make it
inductive — no duplicate evictable flags, and every frame id held by
the free list, the replacer, or the page table is non-negative. -/
def C2Inv (s : BPM) : Prop :=
  PinEvictInv s ∧
  s.replacer.evict_flag.Nodup ∧
  (∀ f ∈ s.free_list, 0 ≤ f) ∧
  (∀ kv ∈ s.replacer.hist_map, 0 ≤ kv.1) ∧
  (∀ kv ∈ s.replacer.last_map, 0 ≤ kv.1) ∧
  (∀ f ∈ s.replacer.evict_flag, 0 ≤ f) ∧
  TableValsNonneg s.page_table

instance (s : BPM) : Decidable (C2Inv s) := by
  unfold C2Inv PinEvictInv TableValsNonneg; infer_instance

/-- `r2` only drops replacer state relative to `r`: its tracking
entries and evictable flags are among those of `r`, and distinctness
of flags is preserved. -/
def ReplacerShrinks (r r2 : Replacer) : Prop :=
  (∀ kv ∈ r2.hist_map, kv ∈ r.hist_map) ∧
  (∀ kv ∈ r2.last_map, kv ∈ r.last_map) ∧
  (∀ g ∈ r2.evict_flag, g ∈ r.evict_flag) ∧
  (r.evict_flag.Nodup → r2.evict_flag.Nodup)

/-! ## Association-list lemmas -/

theorem alookup_none_iff {α : Type} (l : List (Int × α)) (k : Int) :
    alookup l k = none ↔ k ∉ akeys l := by
  induction l with
  | nil => simp [alookup, akeys]
  | cons hd rest ih =>
      obtain ⟨k2, v⟩ := hd
      by_cases hk : k2 = k
      · subst hk; simp [alookup, akeys]
      · simp [alookup, akeys, hk, ih, Ne.symm hk]

theorem alookup_isSome_iff {α : Type} (l : List (Int × α)) (k : Int) :
    (alookup l k).isSome = true ↔ k ∈ akeys l := by
  rw [Option.isSome_iff_ne_none, ne_eq, alookup_none_iff, not_not]

theorem mem_of_alookup_eq_some {α : Type} {l : List (Int × α)} {k : Int} {v : α}
    (hl : alookup l k = some v) : (k, v) ∈ l := by
  induction l with
  | nil => simp [alookup] at hl
  | cons hd rest ih =>
      obtain ⟨k2, w⟩ := hd
      by_cases hk : k2 = k
      · subst hk
        simp [alookup] at hl
        subst hl
        exact List.mem_cons_self _ _
      · simp [alookup, hk] at hl
        exact List.mem_cons_of_mem _ (ih hl)

theorem alookup_of_mem_nodup {α : Type} {l : List (Int × α)} {k : Int} {v : α}
    (hm : (k, v) ∈ l) (hnd : (akeys l).Nodup) : alookup l k = some v := by
  induction l with
  | nil => simp at hm
  | cons hd rest ih =>
      obtain ⟨k2, w⟩ := hd
      simp only [akeys, List.map_cons, List.nodup_cons] at hnd
      rcases List.mem_cons.mp hm with heq | hm2
      · cases heq; simp [alookup]
      · have hk : k2 ≠ k := by
          intro he; subst he
          exact hnd.1 (List.mem_map.mpr ⟨(k2, v), hm2, rfl⟩)
        simp only [alookup, if_neg hk]
        exact ih hm2 hnd.2

theorem mem_aerase {α : Type} {l : List (Int × α)} {k : Int} {x : Int × α}
    (hm : x ∈ aerase l k) : x ∈ l := by
  induction l with
  | nil => simp [aerase] at hm
  | cons hd rest ih =>
      obtain ⟨k2, v⟩ := hd
      by_cases hk : k2 = k
      · simp only [aerase, if_pos hk] at hm
        exact List.mem_cons_of_mem _ hm
      · simp only [aerase, if_neg hk] at hm
        rcases List.mem_cons.mp hm with heq | hm2
        · exact heq ▸ List.mem_cons_self _ _
        · exact List.mem_cons_of_mem _ (ih hm2)

theorem akeys_aerase_sub {α : Type} {l : List (Int × α)} {k k2 : Int}
    (hm : k2 ∈ akeys (aerase l k)) : k2 ∈ akeys l := by
  rcases List.mem_map.mp hm with ⟨x, hx, hxe⟩
  exact List.mem_map.mpr ⟨x, mem_aerase hx, hxe⟩

theorem akeys_aerase_nodup {α : Type} {l : List (Int × α)} (k : Int)
    (hnd : (akeys l).Nodup) : (akeys (aerase l k)).Nodup := by
  induction l with
  | nil => simp [aerase, akeys]
  | cons hd rest ih =>
      obtain ⟨k2, v⟩ := hd
      simp only [akeys, List.map_cons, List.nodup_cons] at hnd
      by_cases hk : k2 = k
      · simpa only [aerase, if_pos hk] using hnd.2
      · simp only [aerase, if_neg hk, akeys, List.map_cons, List.nodup_cons]
        exact ⟨fun hc => hnd.1 (akeys_aerase_sub hc), ih hnd.2⟩

theorem alookup_aerase_self {α : Type} {l : List (Int × α)} {k : Int}
    (hnd : (akeys l).Nodup) : alookup (aerase l k) k = none := by
  induction l with
  | nil => simp [aerase, alookup]
  | cons hd rest ih =>
      obtain ⟨k2, v⟩ := hd
      simp only [akeys, List.map_cons, List.nodup_cons] at hnd
      by_cases hk : k2 = k
      · subst hk
        simp only [aerase, if_pos rfl]
        rw [alookup_none_iff]
        intro hc
        exact hnd.1 hc
      · simp only [aerase, if_neg hk, alookup, if_neg hk]
        exact ih hnd.2

theorem alookup_aerase_ne {α : Type} (l : List (Int × α)) {k k2 : Int}
    (hk : k2 ≠ k) : alookup (aerase l k) k2 = alookup l k2 := by
  induction l with
  | nil => rfl
  | cons hd rest ih =>
      obtain ⟨k3, v⟩ := hd
      by_cases h3 : k3 = k
      · subst h3
        have h32 : ¬ k3 = k2 := fun he => hk he.symm
        simp [aerase, alookup, h32]
      · by_cases h32 : k3 = k2
        · subst h32; simp [aerase, h3, alookup]
        · simp [aerase, h3, alookup, h32, ih]

theorem alookup_aupdate_self {α : Type} (l : List (Int × α)) (k : Int) (v : α) :
    alookup (aupdate l k v) k = some v := by
  induction l with
  | nil => simp [aupdate, alookup]
  | cons hd rest ih =>
      obtain ⟨k2, w⟩ := hd
      by_cases hk : k2 = k
      · subst hk; simp [aupdate, alookup]
      · simp only [aupdate, if_neg hk, alookup, if_neg hk]
        exact ih

theorem alookup_aupdate_ne {α : Type} (l : List (Int × α)) {k k2 : Int} (v : α)
    (hk : k2 ≠ k) : alookup (aupdate l k v) k2 = alookup l k2 := by
  induction l with
  | nil =>
      have hne : ¬ k = k2 := fun he => hk he.symm
      simp [aupdate, alookup, hne]
  | cons hd rest ih =>
      obtain ⟨k3, w⟩ := hd
      by_cases h3 : k3 = k
      · subst h3
        have hne : ¬ k3 = k2 := fun he => hk he.symm
        simp [aupdate, alookup, hne]
      · by_cases h32 : k3 = k2
        · subst h32; simp [aupdate, h3, alookup]
        · simp [aupdate, h3, alookup, h32, ih]

theorem mem_aupdate {α : Type} {l : List (Int × α)} {k : Int} {v : α} {x : Int × α}
    (hm : x ∈ aupdate l k v) : x ∈ l ∨ x = (k, v) := by
  induction l with
  | nil => simp [aupdate] at hm; right; exact hm
  | cons hd rest ih =>
      obtain ⟨k2, w⟩ := hd
      by_cases hk : k2 = k
      · subst hk
        simp only [aupdate, if_pos rfl] at hm
        rcases List.mem_cons.mp hm with heq | hm2
        · right; exact heq
        · left; exact List.mem_cons_of_mem _ hm2
      · simp only [aupdate, if_neg hk] at hm
        rcases List.mem_cons.mp hm with heq | hm2
        · left; exact heq ▸ List.mem_cons_self _ _
        · rcases ih hm2 with h | h
          · left; exact List.mem_cons_of_mem _ h
          · right; exact h

theorem akeys_aupdate_mem {α : Type} {l : List (Int × α)} {k k2 : Int} {v : α}
    (hm : k2 ∈ akeys (aupdate l k v)) : k2 ∈ akeys l ∨ k2 = k := by
  rcases List.mem_map.mp hm with ⟨x, hx, hxe⟩
  rcases mem_aupdate hx with h | h
  · left; exact List.mem_map.mpr ⟨x, h, hxe⟩
  · right; subst h; exact hxe ▸ rfl

theorem mem_aset {α : Type} {l : List (Int × α)} {k : Int} {v : α} {x : Int × α}
    (hm : x ∈ aset l k v) : x ∈ l ∨ x = (k, v) := by
  induction l with
  | nil => simp [aset] at hm
  | cons hd rest ih =>
      obtain ⟨k2, w⟩ := hd
      by_cases hk : k2 = k
      · subst hk
        simp only [aset, if_pos rfl] at hm
        rcases List.mem_cons.mp hm with heq | hm2
        · right; exact heq
        · left; exact List.mem_cons_of_mem _ hm2
      · simp only [aset, if_neg hk] at hm
        rcases List.mem_cons.mp hm with heq | hm2
        · left; exact heq ▸ List.mem_cons_self _ _
        · rcases ih hm2 with h | h
          · left; exact List.mem_cons_of_mem _ h
          · right; exact h

theorem alookup_aset_self {α : Type} {l : List (Int × α)} {k : Int} (v : α)
    (hs : (alookup l k).isSome = true) : alookup (aset l k v) k = some v := by
  induction l with
  | nil => simp [alookup] at hs
  | cons hd rest ih =>
      obtain ⟨k2, w⟩ := hd
      by_cases hk : k2 = k
      · subst hk; simp [aset, alookup]
      · simp only [alookup, if_neg hk] at hs
        simp only [aset, if_neg hk, alookup, if_neg hk]
        exact ih hs

/-! ## Lemmas about the eviction scan -/

theorem scanMin_snd_le (flag : List Int) (es : List (Int × Nat)) (acc : Int × Nat) :
    (scanMin flag es acc).2 ≤ acc.2 ∧
    ∀ e ∈ es, e.1 ∈ flag → (scanMin flag es acc).2 ≤ e.2 := by
  induction es generalizing acc with
  | nil => simp [scanMin]
  | cons hd rest ih =>
      obtain ⟨f, v⟩ := hd
      simp only [scanMin]
      by_cases hc : f ∈ flag ∧ v < acc.2
      · rw [if_pos hc]
        obtain ⟨h1, h2⟩ := ih (f, v)
        refine ⟨h1.trans (le_of_lt hc.2), ?_⟩
        intro e he hef
        rcases List.mem_cons.mp he with heq | he2
        · subst heq; exact h1
        · exact h2 e he2 hef
      · rw [if_neg hc]
        obtain ⟨h1, h2⟩ := ih acc
        refine ⟨h1, ?_⟩
        intro e he hef
        rcases List.mem_cons.mp he with heq | he2
        · subst heq
          have hv : ¬ v < acc.2 := fun hv => hc ⟨hef, hv⟩
          exact h1.trans (not_lt.mp hv)
        · exact h2 e he2 hef

theorem scanMin_origin (flag : List Int) (es : List (Int × Nat)) (acc : Int × Nat) :
    scanMin flag es acc = acc ∨
    (scanMin flag es acc ∈ es ∧ (scanMin flag es acc).1 ∈ flag ∧
      (scanMin flag es acc).2 < acc.2) := by
  induction es generalizing acc with
  | nil => left; simp [scanMin]
  | cons hd rest ih =>
      obtain ⟨f, v⟩ := hd
      simp only [scanMin]
      by_cases hc : f ∈ flag ∧ v < acc.2
      · rw [if_pos hc]
        rcases ih (f, v) with h | ⟨h1, h2, h3⟩
        · right
          rw [h]
          exact ⟨List.mem_cons_self _ _, hc.1, hc.2⟩
        · right
          exact ⟨List.mem_cons_of_mem _ h1, h2, h3.trans hc.2⟩
      · rw [if_neg hc]
        rcases ih acc with h | ⟨h1, h2, h3⟩
        · left; exact h
        · right; exact ⟨List.mem_cons_of_mem _ h1, h2, h3⟩

/-! ## Claim C6: RecordAccess -/

/-- C6 counterexample: the claim says `RecordAccess(f)` with `f` out of
range changes no tracking state, but the code only rejects
`frame_id >= (int)replacer_size_`; the out-of-range frame `-1`
(frame ids range over `[0, num_frames)`) is recorded in the history
map of a fresh 4-frame replacer. -/
theorem recordAccess_negative_frame_tracked :
    ((-1 : Int) < 0) ∧
    (recordAccess (mkReplacer 4 2) (-1)).hist_map ≠ (mkReplacer 4 2).hist_map := by
  decide

/-- C6 (amended: only frames `≥ num_frames` are ignored; a negative
frame id is treated like an in-range one): `RecordAccess(f)` with
`f ≥ num_frames` changes no tracking state; on a steady-phase frame it
replaces the most-recent timestamp with the new clock value; otherwise
it appends the new clock value to the frame's history, and when the
history reaches `K` entries the frame transitions to the steady phase
keeping only the latest timestamp and discarding the history list.
The hypothesis is the reachable-state bound that a tracked history
holds fewer than `K` timestamps (with `K ≥ 1` when untracked). -/
theorem recordAccess_spec (r : Replacer) (f : Int)
    (hlen : ((alookup r.hist_map f).getD []).length + 1 ≤ r.k) :
    ((r.replacer_size : Int) ≤ f →
      (recordAccess r f).hist_map = r.hist_map ∧
      (recordAccess r f).last_map = r.last_map ∧
      (recordAccess r f).evict_flag = r.evict_flag) ∧
    (f < (r.replacer_size : Int) → (alookup r.last_map f).isSome = true →
      (recordAccess r f).last_map = aupdate r.last_map f (r.current_timestamp + 1) ∧
      (recordAccess r f).hist_map = r.hist_map ∧
      (recordAccess r f).evict_flag = r.evict_flag) ∧
    (f < (r.replacer_size : Int) → alookup r.last_map f = none →
      (((alookup r.hist_map f).getD []).length + 1 = r.k →
        (recordAccess r f).hist_map = aerase r.hist_map f ∧
        (recordAccess r f).last_map = aupdate r.last_map f (r.current_timestamp + 1) ∧
        (recordAccess r f).evict_flag = r.evict_flag) ∧
      (((alookup r.hist_map f).getD []).length + 1 ≠ r.k →
        (recordAccess r f).hist_map =
          aupdate r.hist_map f ((alookup r.hist_map f).getD [] ++ [r.current_timestamp + 1]) ∧
        (recordAccess r f).last_map = r.last_map ∧
        (recordAccess r f).evict_flag = r.evict_flag)) := by
  refine ⟨fun hge => ?_, fun hlt hsteady => ?_, fun hlt hnone => ⟨fun hk => ?_, fun hk => ?_⟩⟩
  · simp [recordAccess, hge]
  · have hlt2 : ¬ ((r.replacer_size : Int) ≤ f) := not_le.mpr hlt
    simp [recordAccess, hlt2, hsteady]
  · have hlt2 : ¬ ((r.replacer_size : Int) ≤ f) := not_le.mpr hlt
    have hks : r.k ≤ ((alookup r.hist_map f).getD []).length + 1 := le_of_eq hk.symm
    simp [recordAccess, hlt2, hnone, hks]
  · have hlt2 : ¬ ((r.replacer_size : Int) ≤ f) := not_le.mpr hlt
    have hks : ¬ (r.k ≤ ((alookup r.hist_map f).getD []).length + 1) := by
      omega
    simp [recordAccess, hlt2, hnone, hks]

/-- Witness for `recordAccess_spec` at a fresh 4-frame, K = 2 replacer
and frame 0. -/
theorem recordAccess_spec_witness :
    (recordAccess (mkReplacer 4 2) 0).hist_map = aupdate (mkReplacer 4 2).hist_map 0 [1] ∧
    (recordAccess (mkReplacer 4 2) 0).last_map = (mkReplacer 4 2).last_map := by
  have h := recordAccess_spec (mkReplacer 4 2) 0 (by decide)
  have h3 := (h.2.2 (by decide) (by decide)).2 (by decide)
  exact ⟨h3.1, h3.2.1⟩

/-! ## Claim C1: Evict -/

/-- C1 counterexample: the claim quantifies over every replacer state,
but the code initialises its scan with the in-band sentinel
`*frame_id = -1` (`lru_k_replacer.cpp:13`), and since `RecordAccess`
accepts negative ids, the state reached from a fresh replacer by the
single call `RecordAccess(-1)` tracks frame `-1` in the history map.
In that state no frame is evictable, yet the post-scan membership test
`hist_map_.find(*frame_id)` hits the tracked key `-1`, so `Evict`
returns success with victim `-1` — falsifying both "considers only
frames whose evictable bit is set" and "returns NONE iff no evictable
frame exists". -/
theorem evict_unset_sentinel_victim :
    (recordAccess (mkReplacer 4 2) (-1)).evict_flag = [] ∧
    (evict (recordAccess (mkReplacer 4 2) (-1))).1 = some (-1) := by
  decide

/-- C1 (amended: provided frame `-1` was never recorded — a tracked
key `-1` collides with the scan sentinel, as the counterexample
shows): `Evict` considers only frames whose evictable bit is set;
among the evictable frames it first selects a history-phase frame,
choosing one with the minimal oldest-access timestamp, and only if no
history-phase evictable frame exists does it select a steady-phase
evictable frame with the minimal most-recent timestamp; it returns
`none` iff no evictable frame exists, and on success it removes the
victim's tracking state and evictable bit.  The remaining hypotheses
are representation invariants of the replacer: distinct map keys, keys
disjoint between the two maps, all recorded timestamps at most the
current clock, and evictable flags only on tracked frames. -/
theorem evict_spec (r : Replacer)
    (hnd_h : (akeys r.hist_map).Nodup) (hnd_l : (akeys r.last_map).Nodup)
    (hnd_f : r.evict_flag.Nodup)
    (hdisj : ∀ f ∈ akeys r.hist_map, f ∉ akeys r.last_map)
    (hsent_h : (-1 : Int) ∉ akeys r.hist_map) (hsent_l : (-1 : Int) ∉ akeys r.last_map)
    (hts_h : ∀ kv ∈ r.hist_map, kv.2.headD 0 ≤ r.current_timestamp)
    (hts_l : ∀ kv ∈ r.last_map, kv.2 ≤ r.current_timestamp)
    (hflag : ∀ f ∈ r.evict_flag, f ∈ akeys r.hist_map ∨ f ∈ akeys r.last_map) :
    ((evict r).1 = none ↔ r.evict_flag = []) ∧
    ((evict r).1 = none → (evict r).2.hist_map = r.hist_map ∧
        (evict r).2.last_map = r.last_map ∧ (evict r).2.evict_flag = r.evict_flag) ∧
    (∀ f, (evict r).1 = some f →
      f ∈ r.evict_flag ∧
      ((∃ g ∈ r.evict_flag, g ∈ akeys r.hist_map) →
        f ∈ akeys r.hist_map ∧
        ∀ kv ∈ r.hist_map, kv.1 ∈ r.evict_flag →
          ((alookup r.hist_map f).getD []).headD 0 ≤ kv.2.headD 0) ∧
      ((∀ g ∈ r.evict_flag, g ∉ akeys r.hist_map) →
        f ∈ akeys r.last_map ∧
        ∀ kv ∈ r.last_map, kv.1 ∈ r.evict_flag →
          (alookup r.last_map f).getD 0 ≤ kv.2) ∧
      alookup (evict r).2.hist_map f = none ∧
      alookup (evict r).2.last_map f = none ∧
      f ∉ (evict r).2.evict_flag) := by
  by_cases hemp : r.hist_map = [] ∧ r.last_map = []
  · have hev : evict r = (none, { r with current_timestamp := r.current_timestamp + 1 }) := by
      simp [evict, hemp.1, hemp.2]
    have hfl : r.evict_flag = [] := by
      cases hf : r.evict_flag with
      | nil => rfl
      | cons a rest =>
          exfalso
          rcases hflag a (hf ▸ List.mem_cons_self a rest) with h | h
          · rw [hemp.1] at h; simp [akeys] at h
          · rw [hemp.2] at h; simp [akeys] at h
    rw [hev]
    exact ⟨by simp [hfl], fun _ => ⟨rfl, rfl, rfl⟩, fun f hf => by simp at hf⟩
  · -- common abbreviations and facts
    have hvals : ∀ e ∈ r.hist_map.map (fun kv => (kv.1, kv.2.headD 0)),
        e.2 < r.current_timestamp + 1 := by
      intro e he
      rcases List.mem_map.mp he with ⟨kv, hkv, rfl⟩
      exact Nat.lt_succ_of_le (hts_h kv hkv)
    have hkeys_es : ∀ e ∈ r.hist_map.map (fun kv => (kv.1, kv.2.headD 0)),
        e.1 ∈ akeys r.hist_map := by
      intro e he
      rcases List.mem_map.mp he with ⟨kv, hkv, rfl⟩
      exact List.mem_map.mpr ⟨kv, hkv, rfl⟩
    by_cases hcase : (alookup r.hist_map
        (scanMin r.evict_flag (r.hist_map.map (fun kv => (kv.1, kv.2.headD 0)))
          (-1, r.current_timestamp + 1)).1).isSome = true
    · -- history-phase victim
      have hev : evict r =
          (some (scanMin r.evict_flag (r.hist_map.map (fun kv => (kv.1, kv.2.headD 0)))
              (-1, r.current_timestamp + 1)).1,
           { r with current_timestamp := r.current_timestamp + 1,
                    hist_map := aerase r.hist_map
                      (scanMin r.evict_flag (r.hist_map.map (fun kv => (kv.1, kv.2.headD 0)))
                        (-1, r.current_timestamp + 1)).1,
                    evict_flag := r.evict_flag.erase
                      (scanMin r.evict_flag (r.hist_map.map (fun kv => (kv.1, kv.2.headD 0)))
                        (-1, r.current_timestamp + 1)).1 }) := by
        simp only [evict]
        rw [if_neg (by simpa using hemp), if_pos (by simpa using hcase)]
      have horig := scanMin_origin r.evict_flag
        (r.hist_map.map (fun kv => (kv.1, kv.2.headD 0))) (-1, r.current_timestamp + 1)
      rcases horig with heq | ⟨hmem, hfl2, hlt⟩
      · exfalso
        rw [heq] at hcase
        exact hsent_h ((alookup_isSome_iff _ _).mp hcase)
      · rw [hev]
        have hfkeys := (alookup_isSome_iff _ _).mp hcase
        refine ⟨?_, by simp, ?_⟩
        · constructor
          · intro hc; cases hc
          · intro hc
            exact absurd (hc ▸ hfl2) (List.not_mem_nil _)
        · intro f hf
          injection hf with hf
          subst hf
          refine ⟨hfl2, fun _ => ⟨hfkeys, ?_⟩, fun habs => absurd hfkeys (habs _ hfl2), ?_, ?_, ?_⟩
          · intro kv hkv hkvf
            rcases List.mem_map.mp hmem with ⟨kv0, hkv0, hkv0e⟩
            have hl0 : alookup r.hist_map
                (scanMin r.evict_flag (r.hist_map.map (fun kv => (kv.1, kv.2.headD 0)))
                  (-1, r.current_timestamp + 1)).1 = some kv0.2 := by
              have : ((scanMin r.evict_flag (r.hist_map.map (fun kv => (kv.1, kv.2.headD 0)))
                  (-1, r.current_timestamp + 1)).1, kv0.2) ∈ r.hist_map := by
                have h1 : kv0.1 = (scanMin r.evict_flag
                    (r.hist_map.map (fun kv => (kv.1, kv.2.headD 0)))
                    (-1, r.current_timestamp + 1)).1 := congrArg Prod.fst hkv0e
                rw [← h1]
                exact hkv0
              exact alookup_of_mem_nodup this hnd_h
            rw [hl0]
            have h2 : kv0.2.headD 0 = (scanMin r.evict_flag
                (r.hist_map.map (fun kv => (kv.1, kv.2.headD 0)))
                (-1, r.current_timestamp + 1)).2 := congrArg Prod.snd hkv0e
            simp only [Option.getD_some]
            rw [h2]
            exact (scanMin_snd_le r.evict_flag
              (r.hist_map.map (fun kv => (kv.1, kv.2.headD 0)))
              (-1, r.current_timestamp + 1)).2 (kv.1, kv.2.headD 0)
              (List.mem_map.mpr ⟨kv, hkv, rfl⟩) hkvf
          · exact alookup_aerase_self hnd_h
          · exact (alookup_none_iff _ _).mpr (hdisj _ hfkeys)
          · exact hnd_f.not_mem_erase
    · -- no history-phase candidate
      have horig := scanMin_origin r.evict_flag
        (r.hist_map.map (fun kv => (kv.1, kv.2.headD 0))) (-1, r.current_timestamp + 1)
      have hp1 : scanMin r.evict_flag (r.hist_map.map (fun kv => (kv.1, kv.2.headD 0)))
          (-1, r.current_timestamp + 1) = (-1, r.current_timestamp + 1) := by
        rcases horig with heq | ⟨hmem, _, _⟩
        · exact heq
        · exact absurd ((alookup_isSome_iff _ _).mpr (hkeys_es _ hmem)) (by simpa using hcase)
      have hnohist : ∀ g ∈ r.evict_flag, g ∉ akeys r.hist_map := by
        intro g hg hgk
        rcases List.mem_map.mp hgk with ⟨kv, hkv, hkve⟩
        have he : (g, kv.2.headD 0) ∈ r.hist_map.map (fun kv => (kv.1, kv.2.headD 0)) :=
          List.mem_map.mpr ⟨kv, hkv, by rw [hkve]⟩
        have hle := (scanMin_snd_le r.evict_flag
          (r.hist_map.map (fun kv => (kv.1, kv.2.headD 0)))
          (-1, r.current_timestamp + 1)).2 (g, kv.2.headD 0) he hg
        rw [hp1] at hle
        have hlt := hvals (g, kv.2.headD 0) he
        exact absurd (lt_of_le_of_lt hle hlt) (lt_irrefl _)
      by_cases hc2 : (scanMin r.evict_flag r.last_map
          (scanMin r.evict_flag (r.hist_map.map (fun kv => (kv.1, kv.2.headD 0)))
            (-1, r.current_timestamp + 1))).1 = -1
      · -- nothing evictable at all
        have hev : evict r = (none, { r with current_timestamp := r.current_timestamp + 1 }) := by
          simp only [evict]
          rw [if_neg (by simpa using hemp), if_neg (by simpa using hcase), if_pos hc2]
        have hfl : r.evict_flag = [] := by
          cases hf : r.evict_flag with
          | nil => rfl
          | cons a rest =>
              exfalso
              have ha : a ∈ r.evict_flag := hf ▸ List.mem_cons_self a rest
              have hal : a ∈ akeys r.last_map := by
                rcases hflag a ha with h | h
                · exact absurd h (hnohist a ha)
                · exact h
              rcases List.mem_map.mp hal with ⟨kv, hkv, hkve⟩
              have hle := (scanMin_snd_le r.evict_flag r.last_map
                (scanMin r.evict_flag (r.hist_map.map (fun kv => (kv.1, kv.2.headD 0)))
                  (-1, r.current_timestamp + 1))).2 kv hkv (hkve ▸ ha)
              have horig2 := scanMin_origin r.evict_flag r.last_map
                (scanMin r.evict_flag (r.hist_map.map (fun kv => (kv.1, kv.2.headD 0)))
                  (-1, r.current_timestamp + 1))
              rcases horig2 with heq2 | ⟨hmem2, _, _⟩
              · rw [heq2, hp1] at hle
                have := lt_of_le_of_lt hle (Nat.lt_succ_of_le (hts_l kv hkv))
                exact absurd this (lt_irrefl _)
              · have := hsent_l (hc2 ▸ List.mem_map.mpr ⟨_, hmem2, rfl⟩)
                exact this
        rw [hev]
        exact ⟨by simp [hfl], fun _ => ⟨rfl, rfl, rfl⟩, fun f hf => by simp at hf⟩
      · -- steady-phase victim
        have hev : evict r =
            (some (scanMin r.evict_flag r.last_map
                (scanMin r.evict_flag (r.hist_map.map (fun kv => (kv.1, kv.2.headD 0)))
                  (-1, r.current_timestamp + 1))).1,
             { r with current_timestamp := r.current_timestamp + 1,
                      last_map := aerase r.last_map
                        (scanMin r.evict_flag r.last_map
                          (scanMin r.evict_flag (r.hist_map.map (fun kv => (kv.1, kv.2.headD 0)))
                            (-1, r.current_timestamp + 1))).1,
                      evict_flag := r.evict_flag.erase
                        (scanMin r.evict_flag r.last_map
                          (scanMin r.evict_flag (r.hist_map.map (fun kv => (kv.1, kv.2.headD 0)))
                            (-1, r.current_timestamp + 1))).1 }) := by
          simp only [evict]
          rw [if_neg (by simpa using hemp), if_neg (by simpa using hcase), if_neg hc2]
        have horig2 := scanMin_origin r.evict_flag r.last_map
          (scanMin r.evict_flag (r.hist_map.map (fun kv => (kv.1, kv.2.headD 0)))
            (-1, r.current_timestamp + 1))
        rcases horig2 with heq2 | ⟨hmem2, hfl2, _⟩
        · exfalso
          rw [heq2, hp1] at hc2
          exact hc2 rfl
        · rw [hev]
          have hfkeys : (scanMin r.evict_flag r.last_map
              (scanMin r.evict_flag (r.hist_map.map (fun kv => (kv.1, kv.2.headD 0)))
                (-1, r.current_timestamp + 1))).1 ∈ akeys r.last_map :=
            List.mem_map.mpr ⟨_, hmem2, rfl⟩
          refine ⟨?_, by simp, ?_⟩
          · constructor
            · intro hc; cases hc
            · intro hc
              exact absurd (hc ▸ hfl2) (List.not_mem_nil _)
          · intro f hf
            injection hf with hf
            subst hf
            refine ⟨hfl2, fun hex => ?_, fun _ => ⟨hfkeys, ?_⟩, ?_, ?_, ?_⟩
            · rcases hex with ⟨g, hg, hgk⟩
              exact absurd hgk (hnohist g hg)
            · intro kv hkv hkvf
              have hl0 : alookup r.last_map
                  (scanMin r.evict_flag r.last_map
                    (scanMin r.evict_flag (r.hist_map.map (fun kv => (kv.1, kv.2.headD 0)))
                      (-1, r.current_timestamp + 1))).1 = some
                  (scanMin r.evict_flag r.last_map
                    (scanMin r.evict_flag (r.hist_map.map (fun kv => (kv.1, kv.2.headD 0)))
                      (-1, r.current_timestamp + 1))).2 :=
                alookup_of_mem_nodup hmem2 hnd_l
              rw [hl0]
              simp only [Option.getD_some]
              exact (scanMin_snd_le r.evict_flag r.last_map
                (scanMin r.evict_flag (r.hist_map.map (fun kv => (kv.1, kv.2.headD 0)))
                  (-1, r.current_timestamp + 1))).2 kv hkv hkvf
            · exact (alookup_none_iff _ _).mpr (hnohist _ hfl2)
            · exact alookup_aerase_self hnd_l
            · exact hnd_f.not_mem_erase

/-- Witness for `evict_spec`: in `sampleReplacer`, the history-phase
frame 2 is evicted (infinite backward k-distance wins), it was
evictable, and its tracking state and evictable bit are gone. -/
theorem evict_spec_witness :
    (evict sampleReplacer).1 = some 2 ∧ (2 : Int) ∈ sampleReplacer.evict_flag ∧
    alookup (evict sampleReplacer).2.hist_map 2 = none ∧
    (2 : Int) ∉ (evict sampleReplacer).2.evict_flag := by
  have h := evict_spec sampleReplacer (by decide) (by decide) (by decide) (by decide)
    (by decide) (by decide) (by decide) (by decide) (by decide)
  have h2 := h.2.2 2 (by decide)
  exact ⟨by decide, h2.1, h2.2.2.2.1, h2.2.2.2.2.2⟩

/-! ## Arithmetic and list-access helpers for the hash table -/

theorem testBit_eq_iff_div_mod (a b d : Nat) :
    (a.testBit d = b.testBit d) ↔ a / 2 ^ d % 2 = b / 2 ^ d % 2 := by
  rw [Nat.testBit_to_div_mod, Nat.testBit_to_div_mod]
  rcases Nat.mod_two_eq_zero_or_one (a / 2 ^ d) with h1 | h1 <;>
    rcases Nat.mod_two_eq_zero_or_one (b / 2 ^ d) with h2 | h2 <;>
    simp [h1, h2]

theorem mod_pow_succ_eq_iff (a b d : Nat) :
    a % 2 ^ (d + 1) = b % 2 ^ (d + 1) ↔
      (a % 2 ^ d = b % 2 ^ d ∧ a.testBit d = b.testBit d) := by
  rw [pow_succ, Nat.mod_mul, Nat.mod_mul, testBit_eq_iff_div_mod]
  have hpos : (0 : Nat) < 2 ^ d := pow_pos (by norm_num) _
  have ha : a % 2 ^ d < 2 ^ d := Nat.mod_lt _ hpos
  have hb : b % 2 ^ d < 2 ^ d := Nat.mod_lt _ hpos
  rcases Nat.mod_two_eq_zero_or_one (a / 2 ^ d) with h1 | h1 <;>
    rcases Nat.mod_two_eq_zero_or_one (b / 2 ^ d) with h2 | h2 <;>
    simp [h1, h2] <;> omega

theorem mod_collapse (a e g : Nat) (hle : e ≤ g) : a % 2 ^ g % 2 ^ e = a % 2 ^ e :=
  Nat.mod_mod_of_dvd a (pow_dvd_pow 2 hle)

theorem getD_map_range (n : Nat) (f : Nat → Nat) (i : Nat) (hi : i < n) :
    ((List.range n).map f).getD i 0 = f i := by
  rw [List.getD_eq_getElem _ _ (by simpa using hi)]
  simp

theorem getD_set_bucket (pool : List Bucket) (p q : Nat) (b : Bucket) :
    (pool.set p b).getD q emptyBucket =
      if p = q ∧ p < pool.length then b else pool.getD q emptyBucket := by
  by_cases hpq : p = q
  · subst hpq
    by_cases hp : p < pool.length
    · rw [if_pos (And.intro rfl hp)]
      rw [List.getD_eq_getElem _ _ (by simpa using hp)]
      simp
    · have hcond : ¬ (p = p ∧ p < pool.length) := fun hc => hp hc.2
      rw [if_neg hcond]
      rw [List.getD_eq_default _ _ (by simpa using not_lt.mp hp),
          List.getD_eq_default _ _ (not_lt.mp hp)]
  · have hcond : ¬ (p = q ∧ p < pool.length) := fun hc => hpq hc.1
    rw [if_neg hcond]
    simp [List.getD_eq_getD_get?, List.get?_eq_getElem?, List.getElem?_set_ne hpq]

theorem getD_append_bucket_left (pool pool2 : List Bucket) (q : Nat)
    (hq : q < pool.length) :
    (pool ++ pool2).getD q emptyBucket = pool.getD q emptyBucket :=
  List.getD_append pool pool2 emptyBucket q hq

/-! ## Directory doubling preserves the invariant -/

theorem dirSlot_doubleDir (t : HTable) (i : Nat) (hi : i < 2 * t.dir.length) :
    dirSlot (doubleDir t) i = dirSlot t (i % t.dir.length) := by
  unfold doubleDir dirSlot
  by_cases hlt : i < t.dir.length
  · simp only []
    rw [List.getD_append _ _ _ _ hlt, Nat.mod_eq_of_lt hlt]
  · have hle : t.dir.length ≤ i := not_lt.mp hlt
    have hL : 0 < t.dir.length := by omega
    simp only []
    rw [List.getD_append_right _ _ _ _ hle]
    have h2 : i % t.dir.length = i - t.dir.length := by
      rw [Nat.mod_eq_sub_mod hle, Nat.mod_eq_of_lt (by omega)]
    rw [h2]

theorem bucketAt_doubleDir (t : HTable) (i : Nat) (hi : i < 2 * t.dir.length) :
    bucketAt (doubleDir t) i = bucketAt t (i % t.dir.length) := by
  unfold bucketAt
  rw [dirSlot_doubleDir t i hi]
  rfl

theorem doubleDir_dirinv {t : HTable} (hInv : DirInv t) : DirInv (doubleDir t) := by
  obtain ⟨h1, h2, h3, h4⟩ := hInv
  have hgd0 : (0 : Nat) < 2 ^ t.global_depth := pow_pos (by norm_num) _
  have hL : 0 < t.dir.length := h1 ▸ hgd0
  have hlen : (doubleDir t).dir.length = 2 * t.dir.length := by
    simp [doubleDir, two_mul]
  refine ⟨?_, ?_, ?_, ?_⟩
  · rw [hlen, h1]
    simp [doubleDir, pow_succ]
    ring
  · intro i hi
    rw [hlen] at hi
    rw [dirSlot_doubleDir t i hi]
    exact h2 _ (Nat.mod_lt _ hL)
  · intro i hi
    rw [hlen] at hi
    rw [bucketAt_doubleDir t i hi]
    have := h3 _ (Nat.mod_lt i hL)
    simp only [doubleDir]
    omega
  · intro i hi j hj
    rw [hlen] at hi hj
    rw [dirSlot_doubleDir t i hi, dirSlot_doubleDir t j hj, bucketAt_doubleDir t i hi]
    have hmi : i % t.dir.length < t.dir.length := Nat.mod_lt _ hL
    have hmj : j % t.dir.length < t.dir.length := Nat.mod_lt _ hL
    have hiff := h4 _ hmi _ hmj
    have hdep : (bucketAt t (i % t.dir.length)).depth ≤ t.global_depth := h3 _ hmi
    have hdvd : ∀ e ≤ t.global_depth, 2 ^ e ∣ t.dir.length := by
      intro e he
      rw [h1]
      exact pow_dvd_pow 2 he
    rw [hiff, Nat.mod_mod_of_dvd i (hdvd _ hdep), Nat.mod_mod_of_dvd j (hdvd _ hdep)]

/-! ## Rewiring a split bucket preserves the invariant -/

theorem rewire_dirinv (t1 : HTable) (bIdx d a bs c : Nat) (b1 b2 : Bucket)
    (hInv1 : DirInv t1)
    (hdep1 : b1.depth = d + 1) (hdep2 : b2.depth = d + 1)
    (hdlt : d < t1.global_depth)
    (hchar : ∀ i < t1.dir.length, (dirSlot t1 i = bIdx ↔ i % 2 ^ d = a % 2 ^ d)) :
    DirInv { bucket_size := bs, global_depth := t1.global_depth, bucket_cnt := c,
             dir := splitRewire t1.dir bIdx t1.pool.length (t1.pool.length + 1) d,
             pool := t1.pool ++ [b1, b2] } := by
  obtain ⟨h1, h2, h3, h4⟩ := hInv1
  have hlen : (splitRewire t1.dir bIdx t1.pool.length (t1.pool.length + 1) d).length =
      t1.dir.length := by
    simp [splitRewire]
  have hslot : ∀ i, i < t1.dir.length →
      (splitRewire t1.dir bIdx t1.pool.length (t1.pool.length + 1) d).getD i 0 =
        if t1.dir.getD i 0 = bIdx then
          (if Nat.testBit i d then t1.pool.length + 1 else t1.pool.length)
        else t1.dir.getD i 0 := by
    intro i hi
    unfold splitRewire
    rw [getD_map_range _ _ i hi]
  have hgb1 : (t1.pool ++ [b1, b2]).getD t1.pool.length emptyBucket = b1 := by
    rw [List.getD_append_right _ _ _ _ (le_refl _)]
    simp
  have hgb2 : (t1.pool ++ [b1, b2]).getD (t1.pool.length + 1) emptyBucket = b2 := by
    rw [List.getD_append_right _ _ _ _ (by omega)]
    have he : t1.pool.length + 1 - t1.pool.length = 1 := by omega
    rw [he]
    rfl
  have hmodd : ∀ x y : Nat, x % 2 ^ (d + 1) = y % 2 ^ (d + 1) → x % 2 ^ d = y % 2 ^ d := by
    intro x y hxy
    exact ((mod_pow_succ_eq_iff x y d).mp hxy).1
  have hlp : (t1.pool ++ [b1, b2]).length = t1.pool.length + 2 := by simp
  unfold DirInv bucketAt dirSlot
  dsimp only
  simp only [hlen, hlp]
  refine ⟨h1, ?_, ?_, ?_⟩
  · intro i hi
    rw [hslot i hi]
    by_cases hPi : t1.dir.getD i 0 = bIdx
    · rw [if_pos hPi]
      by_cases hbi : Nat.testBit i d
      · rw [if_pos hbi]; omega
      · rw [if_neg hbi]; omega
    · rw [if_neg hPi]
      have := h2 i hi
      unfold dirSlot at this
      omega
  · intro i hi
    rw [hslot i hi]
    by_cases hPi : t1.dir.getD i 0 = bIdx
    · rw [if_pos hPi]
      by_cases hbi : Nat.testBit i d
      · rw [if_pos hbi, hgb2, hdep2]; omega
      · rw [if_neg hbi, hgb1, hdep1]; omega
    · rw [if_neg hPi]
      have hlt : t1.dir.getD i 0 < t1.pool.length := h2 i hi
      rw [getD_append_bucket_left _ _ _ hlt]
      exact h3 i hi
  · intro i hi j hj
    rw [hslot i hi, hslot j hj]
    by_cases hPi : t1.dir.getD i 0 = bIdx <;> by_cases hPj : t1.dir.getD j 0 = bIdx
    · -- both slots referenced the split bucket
      rw [if_pos hPi, if_pos hPj]
      have hia : i % 2 ^ d = a % 2 ^ d := (hchar i hi).mp hPi
      have hja : j % 2 ^ d = a % 2 ^ d := (hchar j hj).mp hPj
      have hij : i % 2 ^ d = j % 2 ^ d := hia.trans hja.symm
      by_cases hbi : Nat.testBit i d <;> by_cases hbj : Nat.testBit j d
      · rw [if_pos hbi, if_pos hbj, hgb2, hdep2]
        simp only [true_iff]
        exact (mod_pow_succ_eq_iff i j d).mpr ⟨hij, hbi.symm ▸ hbj ▸ rfl⟩
      · rw [if_pos hbi, if_neg hbj, hgb2, hdep2]
        constructor
        · intro hc; omega
        · intro hc
          have := ((mod_pow_succ_eq_iff i j d).mp hc).2
          rw [hbi] at this
          exact absurd this.symm (by simpa using hbj)
      · rw [if_neg hbi, if_pos hbj, hgb1, hdep1]
        constructor
        · intro hc; omega
        · intro hc
          have := ((mod_pow_succ_eq_iff i j d).mp hc).2
          rw [hbj] at this
          exact absurd this (by simpa using hbi)
      · rw [if_neg hbi, if_neg hbj, hgb1, hdep1]
        simp only [true_iff]
        have hbb : Nat.testBit i d = Nat.testBit j d := by
          simp only [Bool.not_eq_true] at hbi hbj
          rw [hbi, hbj]
        exact (mod_pow_succ_eq_iff i j d).mpr ⟨hij, hbb⟩
    · -- old slot j, split slot i
      rw [if_pos hPi, if_neg hPj]
      have hjlt : t1.dir.getD j 0 < t1.pool.length := h2 j hj
      have hne : ∀ z, t1.pool.length ≤ z → ¬ z = t1.dir.getD j 0 := by
        intro z hz hc
        omega
      have hdepi : ((t1.pool ++ [b1, b2]).getD
          (if Nat.testBit i d then t1.pool.length + 1 else t1.pool.length) emptyBucket).depth =
          d + 1 := by
        by_cases hbi : Nat.testBit i d
        · rw [if_pos hbi, hgb2, hdep2]
        · rw [if_neg hbi, hgb1, hdep1]
      rw [hdepi]
      constructor
      · intro hc
        exfalso
        by_cases hbi : Nat.testBit i d
        · rw [if_pos hbi] at hc; exact hne _ (by omega) hc
        · rw [if_neg hbi] at hc; exact hne _ (le_refl _) hc
      · intro hc
        exfalso
        have hij : i % 2 ^ d = j % 2 ^ d := hmodd i j hc
        have hja : j % 2 ^ d = a % 2 ^ d := hij ▸ (hchar i hi).mp hPi
        exact hPj ((hchar j hj).mpr hja)
    · -- old slot i, split slot j
      rw [if_neg hPi, if_pos hPj]
      have hilt : t1.dir.getD i 0 < t1.pool.length := h2 i hi
      rw [getD_append_bucket_left _ _ _ hilt]
      have hdepi : (t1.pool.getD (t1.dir.getD i 0) emptyBucket).depth ≤ t1.global_depth :=
        h3 i hi
      constructor
      · intro hc
        exfalso
        by_cases hbj : Nat.testBit j d
        · rw [if_pos hbj] at hc; omega
        · rw [if_neg hbj] at hc; omega
      · intro hc
        exfalso
        have hsame : t1.dir.getD i 0 = t1.dir.getD j 0 := (h4 i hi j hj).mpr hc
        exact hPi (hsame.trans hPj)
    · -- both old slots
      rw [if_neg hPi, if_neg hPj]
      have hilt : t1.dir.getD i 0 < t1.pool.length := h2 i hi
      rw [getD_append_bucket_left _ _ _ hilt]
      exact h4 i hi j hj

theorem doubleDir_dir_length (t : HTable) : (doubleDir t).dir.length = 2 * t.dir.length := by
  simp [doubleDir, two_mul]

/-- In an invariant-satisfying table, a slot references the bucket of
`key` exactly when its index agrees with `hash(key)` modulo
`2^local_depth` of that bucket. -/
theorem slot_char (h : Int → Nat) (t : HTable) (key : Int) (hInv : DirInv t) :
    ∀ i < t.dir.length,
      (dirSlot t i = dirSlot t (indexOf h t key) ↔
        i % 2 ^ (bucketAt t (indexOf h t key)).depth =
          h key % 2 ^ (bucketAt t (indexOf h t key)).depth) := by
  obtain ⟨h1, h2, h3, h4⟩ := hInv
  have hgd0 : (0 : Nat) < 2 ^ t.global_depth := pow_pos (by norm_num) _
  have hidx : indexOf h t key < t.dir.length := by
    rw [h1]
    exact Nat.mod_lt _ hgd0
  have hd : (bucketAt t (indexOf h t key)).depth ≤ t.global_depth := h3 _ hidx
  have hcoll : indexOf h t key % 2 ^ (bucketAt t (indexOf h t key)).depth =
      h key % 2 ^ (bucketAt t (indexOf h t key)).depth := by
    unfold indexOf
    exact mod_collapse (h key) _ _ hd
  intro i hi
  constructor
  · intro heq
    have hmod := (h4 i hi _ hidx).mp heq
    have hbeq : bucketAt t i = bucketAt t (indexOf h t key) := by
      unfold bucketAt
      rw [heq]
    rw [hbeq] at hmod
    rw [← hcoll]
    exact hmod
  · intro hmod
    have hs := (h4 _ hidx i hi).mpr (by rw [hcoll]; exact hmod.symm)
    exact hs.symm

/-- One overflow iteration preserves the directory invariant. -/
theorem splitStep_dirinv (h : Int → Nat) (t : HTable) (key : Int) (hInv : DirInv t) :
    DirInv (splitStep h t key) := by
  have hchar0 := slot_char h t key hInv
  obtain ⟨h1, h2, h3, h4⟩ := hInv
  have hgd0 : (0 : Nat) < 2 ^ t.global_depth := pow_pos (by norm_num) _
  have hL : 0 < t.dir.length := h1 ▸ hgd0
  have hidx : indexOf h t key < t.dir.length := by
    rw [h1]
    exact Nat.mod_lt _ hgd0
  have hd : (bucketAt t (indexOf h t key)).depth ≤ t.global_depth := h3 _ hidx
  have hdvd : 2 ^ (bucketAt t (indexOf h t key)).depth ∣ t.dir.length := by
    rw [h1]
    exact pow_dvd_pow 2 hd
  unfold bucketAt at hd
  simp only [splitStep]
  by_cases hcond :
      (t.pool.getD (dirSlot t (indexOf h t key)) emptyBucket).depth = t.global_depth
  · rw [if_pos hcond]
    refine rewire_dirinv (doubleDir t) _ _ (h key) _ _ _ _
      (doubleDir_dirinv ⟨h1, h2, h3, h4⟩) rfl rfl ?_ ?_
    · show (t.pool.getD (dirSlot t (indexOf h t key)) emptyBucket).depth <
        (doubleDir t).global_depth
      have hg : (doubleDir t).global_depth = t.global_depth + 1 := rfl
      omega
    · intro i hi
      rw [doubleDir_dir_length] at hi
      rw [dirSlot_doubleDir t i hi]
      have hmi : i % t.dir.length < t.dir.length := Nat.mod_lt _ hL
      have hcc := hchar0 _ hmi
      constructor
      · intro heq
        have hmod := hcc.mp heq
        rw [Nat.mod_mod_of_dvd i hdvd] at hmod
        exact hmod
      · intro hmod
        apply hcc.mpr
        rw [Nat.mod_mod_of_dvd i hdvd]
        exact hmod
  · rw [if_neg hcond]
    refine rewire_dirinv t _ _ (h key) _ _ _ _ ⟨h1, h2, h3, h4⟩ rfl rfl ?_ ?_
    · show (t.pool.getD (dirSlot t (indexOf h t key)) emptyBucket).depth < t.global_depth
      omega
    · intro i hi
      exact hchar0 i hi

/-! ## The remaining table operations preserve the invariant -/

/-- Replacing a pool bucket by one of equal depth preserves the
directory invariant (covers `Bucket::Remove`, the upsert, and the
final `Bucket::Insert`, which touch only the entry list). -/
theorem set_pool_dirinv (t : HTable) (p : Nat) (b : Bucket)
    (hdep : b.depth = (t.pool.getD p emptyBucket).depth) (hInv : DirInv t) :
    DirInv { t with pool := t.pool.set p b } := by
  obtain ⟨h1, h2, h3, h4⟩ := hInv
  have hdep2 : ∀ q, ((t.pool.set p b).getD q emptyBucket).depth =
      (t.pool.getD q emptyBucket).depth := by
    intro q
    rw [getD_set_bucket]
    by_cases hc : p = q ∧ p < t.pool.length
    · rw [if_pos hc, hdep, hc.1]
    · rw [if_neg hc]
  refine ⟨h1, ?_, ?_, ?_⟩
  · intro i hi
    show dirSlot t i < (t.pool.set p b).length
    rw [List.length_set]
    exact h2 i hi
  · intro i hi
    show ((t.pool.set p b).getD (dirSlot t i) emptyBucket).depth ≤ t.global_depth
    rw [hdep2]
    exact h3 i hi
  · intro i hi j hj
    show dirSlot t i = dirSlot t j ↔
      i % 2 ^ ((t.pool.set p b).getD (dirSlot t i) emptyBucket).depth =
      j % 2 ^ ((t.pool.set p b).getD (dirSlot t i) emptyBucket).depth
    rw [hdep2]
    exact h4 i hi j hj

theorem tableRemove_dirinv (h : Int → Nat) (t : HTable) (key : Int) (hInv : DirInv t) :
    DirInv (tableRemove h t key).2 :=
  set_pool_dirinv t _ _ rfl hInv

theorem insertLoop_not_full (h : Int → Nat) (fuel : Nat) (t : HTable) (key : Int)
    (hc : ¬ (bucketAt t (indexOf h t key)).cell.length = t.bucket_size) :
    insertLoop h fuel t key = some t := by
  unfold insertLoop
  rw [if_neg hc]

theorem insertLoop_full_zero (h : Int → Nat) (t : HTable) (key : Int)
    (hc : (bucketAt t (indexOf h t key)).cell.length = t.bucket_size) :
    insertLoop h 0 t key = none := by
  unfold insertLoop
  rw [if_pos hc]

theorem insertLoop_full_succ (h : Int → Nat) (n : Nat) (t : HTable) (key : Int)
    (hc : (bucketAt t (indexOf h t key)).cell.length = t.bucket_size) :
    insertLoop h (n + 1) t key = insertLoop h n (splitStep h t key) key := by
  conv_lhs => unfold insertLoop
  rw [if_pos hc]

theorem insertLoop_dirinv (h : Int → Nat) (fuel : Nat) (t : HTable) (key : Int) (t2 : HTable)
    (hInv : DirInv t) (hrun : insertLoop h fuel t key = some t2) : DirInv t2 := by
  induction fuel generalizing t with
  | zero =>
      by_cases hc : (bucketAt t (indexOf h t key)).cell.length = t.bucket_size
      · rw [insertLoop_full_zero h t key hc] at hrun
        cases hrun
      · rw [insertLoop_not_full h 0 t key hc] at hrun
        cases hrun
        exact hInv
  | succ n ih =>
      by_cases hc : (bucketAt t (indexOf h t key)).cell.length = t.bucket_size
      · rw [insertLoop_full_succ h n t key hc] at hrun
        exact ih (splitStep h t key) (splitStep_dirinv h t key hInv) hrun
      · rw [insertLoop_not_full h (n + 1) t key hc] at hrun
        cases hrun
        exact hInv

theorem tableInsert_some (h : Int → Nat) (fuel : Nat) (t : HTable) (key v : Int) (t1 : HTable)
    (hloop : insertLoop h fuel t key = some t1) :
    tableInsert h fuel t key v =
      (if (alookup (bucketAt t1 (indexOf h t1 key)).cell key).isSome = true then
        some (setBucketCell t1 (indexOf h t1 key)
          (aset (bucketAt t1 (indexOf h t1 key)).cell key v))
      else
        some (setBucketCell t1 (indexOf h t1 key)
          (bucketInsert t1.bucket_size (bucketAt t1 (indexOf h t1 key)).cell key v))) := by
  unfold tableInsert
  rw [hloop]
  rfl

theorem tableInsert_dirinv (h : Int → Nat) (fuel : Nat) (t : HTable) (key v : Int) (t2 : HTable)
    (hInv : DirInv t) (hrun : tableInsert h fuel t key v = some t2) : DirInv t2 := by
  cases hloop : insertLoop h fuel t key with
  | none =>
      unfold tableInsert at hrun
      rw [hloop] at hrun
      exact Option.noConfusion hrun
  | some t1 =>
      rw [tableInsert_some h fuel t key v t1 hloop] at hrun
      have hInv1 := insertLoop_dirinv h fuel t key t1 hInv hloop
      by_cases hc : (alookup (bucketAt t1 (indexOf h t1 key)).cell key).isSome = true
      · rw [if_pos hc] at hrun
        have he : setBucketCell t1 (indexOf h t1 key)
            (aset (bucketAt t1 (indexOf h t1 key)).cell key v) = t2 := Option.some.inj hrun
        rw [← he]
        exact set_pool_dirinv t1 (dirSlot t1 (indexOf h t1 key)) _ rfl hInv1
      · rw [if_neg hc] at hrun
        have he : setBucketCell t1 (indexOf h t1 key)
            (bucketInsert t1.bucket_size (bucketAt t1 (indexOf h t1 key)).cell key v) = t2 :=
          Option.some.inj hrun
        rw [← he]
        exact set_pool_dirinv t1 (dirSlot t1 (indexOf h t1 key)) _ rfl hInv1

theorem applyTOp_dirinv (h : Int → Nat) (s : HTable) (op : TOp) (t2 : HTable)
    (hInv : DirInv s) (hrun : applyTOp h s op = some t2) : DirInv t2 := by
  cases op with
  | ins fuel k v => exact tableInsert_dirinv h fuel s k v t2 hInv hrun
  | rem k =>
      cases hrun
      exact tableRemove_dirinv h s k hInv
  | lookup k =>
      cases hrun
      exact hInv

theorem runTable_aux (h : Int → Nat) (ops : List TOp) (acc : Option HTable)
    (hacc : ∀ t0, acc = some t0 → DirInv t0) :
    ∀ t, ops.foldl (fun acc2 op => acc2.bind (fun t0 => applyTOp h t0 op)) acc = some t →
      DirInv t := by
  induction ops generalizing acc with
  | nil =>
      intro t ht
      exact hacc t ht
  | cons op rest ih =>
      intro t ht
      refine ih (acc.bind fun t0 => applyTOp h t0 op) ?_ t ht
      intro t0 h0
      cases acc with
      | none => cases h0
      | some s =>
          simp only [Option.bind_some] at h0
          exact applyTOp_dirinv h s op t0 (hacc s rfl) h0

/-! ## Claim C3: the directory invariant holds in every reachable table -/

/-- C3: after any fuelled sequence of `Insert`, `Remove`, and `Find`
operations on a fresh extendible hash table (any bucket size, any hash
function), every directory slot references a bucket with `local_depth
≤ global_depth`, and two slots reference the same bucket iff their
indices are congruent modulo `2^local_depth` of that bucket (`DirInv`
also records the auxiliary facts that the directory has
`2^global_depth` slots, each referencing a pool bucket). -/
theorem runTable_dirinv (h : Int → Nat) (bs : Nat) (ops : List TOp) (t : HTable)
    (hrun : runTable h bs ops = some t) : DirInv t := by
  refine runTable_aux h ops (some (mkTable bs)) ?_ t hrun
  intro t0 h0
  cases h0
  refine ⟨rfl, ?_, ?_, ?_⟩
  · intro i hi
    have hi1 : i < 1 := hi
    have hz : i = 0 := by omega
    subst hz
    show (0 : Nat) < 1
    norm_num
  · intro i hi
    have hi1 : i < 1 := hi
    have hz : i = 0 := by omega
    subst hz
    show (0 : Nat) ≤ 0
    exact le_refl 0
  · intro i hi j hj
    have hi1 : i < 1 := hi
    have hj1 : j < 1 := hj
    have hzi : i = 0 := by omega
    have hzj : j = 0 := by omega
    subst hzi
    subst hzj
    constructor
    · intro _
      rfl
    · intro _
      rfl

/-- Witness for `runTable_dirinv`: a three-insert run with two splits
reaches `c3wit`, which satisfies the directory invariant. -/
theorem runTable_dirinv_witness :
    runTable idHash 2 [TOp.ins 5 0 10, TOp.ins 5 2 11, TOp.ins 5 4 12] = some c3wit ∧
    DirInv c3wit :=
  ⟨by decide,
   runTable_dirinv idHash 2 [TOp.ins 5 0 10, TOp.ins 5 2 11, TOp.ins 5 4 12] c3wit (by decide)⟩

/-! ## Claim C5: one overflow iteration -/

theorem splitCells_filter (h : Int → Nat) (bs depth : Nat) (cell : List (Int × Int)) :
    ∀ accz acco : List (Int × Int),
      accz.length + acco.length + cell.length ≤ bs →
      splitCells h bs depth cell (accz, acco) =
        (accz ++ cell.filter (fun kv => ! Nat.testBit (h kv.1) depth),
         acco ++ cell.filter (fun kv => Nat.testBit (h kv.1) depth)) := by
  induction cell with
  | nil =>
      intro accz acco hlen
      simp [splitCells]
  | cons kv rest ih =>
      intro accz acco hlen
      simp only [List.length_cons] at hlen
      simp only [splitCells]
      by_cases hb : Nat.testBit (h kv.1) depth
      · rw [if_pos (by simp [hb])]
        have hins : bucketInsert bs acco kv.1 kv.2 = acco ++ [(kv.1, kv.2)] := by
          unfold bucketInsert
          rw [if_neg (by omega)]
        rw [hins, ih accz (acco ++ [(kv.1, kv.2)]) (by simp; omega)]
        rw [List.filter_cons, List.filter_cons]
        simp [hb]
      · rw [if_neg (by simp [hb])]
        have hins : bucketInsert bs accz kv.1 kv.2 = accz ++ [(kv.1, kv.2)] := by
          unfold bucketInsert
          rw [if_neg (by omega)]
        rw [hins, ih (accz ++ [(kv.1, kv.2)]) acco (by simp; omega)]
        rw [List.filter_cons, List.filter_cons]
        simp [hb]

/-- C5: one iteration of the overflow loop on a full target bucket of
local depth `d`: when `d` equals the global depth the directory
doubles (slot `i + old_len` initially referencing the same bucket as
slot `i`) and the global depth increments, else the global depth is
unchanged; the bucket count grows by exactly one; exactly two new
buckets of depth `d + 1` are appended, holding the old entries
partitioned by bit `d` (i.e. by `hash(k) & m`, `m = 2^d`) of their
hash; every pre-existing pool bucket is unchanged (same identity,
depth, and entries); directory slots that referenced the old bucket
are repointed to the new pair by bit `d` of the slot index, and every
other slot keeps its reference. -/
theorem splitStep_spec (h : Int → Nat) (t : HTable) (key : Int) (d bIdx : Nat) (t1 : HTable)
    (hd : d = (bucketAt t (indexOf h t key)).depth)
    (hb : bIdx = dirSlot t (indexOf h t key))
    (ht1 : t1 = (if (bucketAt t (indexOf h t key)).depth = t.global_depth
                 then doubleDir t else t))
    (hfull : (bucketAt t (indexOf h t key)).cell.length = t.bucket_size) :
    t1.pool = t.pool ∧
    (d = t.global_depth → (splitStep h t key).global_depth = t.global_depth + 1 ∧
      (doubleDir t).dir.length = 2 * t.dir.length ∧
      ∀ i < t.dir.length, dirSlot (doubleDir t) (i + t.dir.length) = dirSlot t i) ∧
    (d ≠ t.global_depth → (splitStep h t key).global_depth = t.global_depth) ∧
    (splitStep h t key).bucket_cnt = t.bucket_cnt + 1 ∧
    (splitStep h t key).pool.length = t.pool.length + 2 ∧
    (splitStep h t key).pool.getD t.pool.length emptyBucket =
      { depth := d + 1, cell := (bucketAt t (indexOf h t key)).cell.filter
          (fun kv => ! Nat.testBit (h kv.1) d) } ∧
    (splitStep h t key).pool.getD (t.pool.length + 1) emptyBucket =
      { depth := d + 1, cell := (bucketAt t (indexOf h t key)).cell.filter
          (fun kv => Nat.testBit (h kv.1) d) } ∧
    (∀ p < t.pool.length,
      (splitStep h t key).pool.getD p emptyBucket = t.pool.getD p emptyBucket) ∧
    (∀ i < t1.dir.length, dirSlot t1 i ≠ bIdx → dirSlot (splitStep h t key) i = dirSlot t1 i) ∧
    (∀ i < t1.dir.length, dirSlot t1 i = bIdx →
      dirSlot (splitStep h t key) i =
        (if Nat.testBit i d then t.pool.length + 1 else t.pool.length)) := by
  have hcells : splitCells h t.bucket_size
      (t.pool.getD (dirSlot t (indexOf h t key)) emptyBucket).depth
      (t.pool.getD (dirSlot t (indexOf h t key)) emptyBucket).cell ([], []) =
      ((bucketAt t (indexOf h t key)).cell.filter
          (fun kv => ! Nat.testBit (h kv.1) (bucketAt t (indexOf h t key)).depth),
       (bucketAt t (indexOf h t key)).cell.filter
          (fun kv => Nat.testBit (h kv.1) (bucketAt t (indexOf h t key)).depth)) := by
    have hh := splitCells_filter h t.bucket_size (bucketAt t (indexOf h t key)).depth
      (bucketAt t (indexOf h t key)).cell [] [] (by simp [hfull])
    simp only [List.nil_append] at hh
    exact hh
  have hpool1 : t1.pool = t.pool := by
    rw [ht1]
    by_cases hc : (bucketAt t (indexOf h t key)).depth = t.global_depth
    · rw [if_pos hc]
      rfl
    · rw [if_neg hc]
  have hpool2 : (splitStep h t key).pool =
      t.pool ++ [{ depth := (bucketAt t (indexOf h t key)).depth + 1,
                   cell := (bucketAt t (indexOf h t key)).cell.filter
                     (fun kv => ! Nat.testBit (h kv.1) (bucketAt t (indexOf h t key)).depth) },
                 { depth := (bucketAt t (indexOf h t key)).depth + 1,
                   cell := (bucketAt t (indexOf h t key)).cell.filter
                     (fun kv => Nat.testBit (h kv.1) (bucketAt t (indexOf h t key)).depth) }] := by
    show (if (bucketAt t (indexOf h t key)).depth = t.global_depth
          then doubleDir t else t).pool ++ _ = _
    rw [← ht1, hpool1, hcells]
    rfl
  have hdir2 : (splitStep h t key).dir =
      splitRewire t1.dir (dirSlot t (indexOf h t key)) t.pool.length (t.pool.length + 1)
        (bucketAt t (indexOf h t key)).depth := by
    show splitRewire (if (bucketAt t (indexOf h t key)).depth = t.global_depth
          then doubleDir t else t).dir _
        (if (bucketAt t (indexOf h t key)).depth = t.global_depth
          then doubleDir t else t).pool.length
        ((if (bucketAt t (indexOf h t key)).depth = t.global_depth
          then doubleDir t else t).pool.length + 1) _ = _
    rw [← ht1, hpool1]
    rfl
  refine ⟨hpool1, ?_, ?_, rfl, ?_, ?_, ?_, ?_, ?_, ?_⟩
  · intro hcond
    rw [hd] at hcond
    refine ⟨?_, doubleDir_dir_length t, ?_⟩
    · show (if (bucketAt t (indexOf h t key)).depth = t.global_depth
            then doubleDir t else t).global_depth = t.global_depth + 1
      rw [if_pos hcond]
      rfl
    · intro i hi
      unfold doubleDir dirSlot
      simp only []
      rw [List.getD_append_right _ _ _ _ (by omega)]
      congr 1
      omega
  · intro hcond
    rw [hd] at hcond
    show (if (bucketAt t (indexOf h t key)).depth = t.global_depth
          then doubleDir t else t).global_depth = t.global_depth
    rw [if_neg hcond]
  · rw [hpool2]
    simp
  · rw [hpool2, hd]
    rw [List.getD_append_right _ _ _ _ (le_refl _)]
    simp
  · rw [hpool2, hd]
    rw [List.getD_append_right _ _ _ _ (by omega)]
    have he : t.pool.length + 1 - t.pool.length = 1 := by omega
    rw [he]
    rfl
  · intro p hp
    rw [hpool2]
    exact getD_append_bucket_left _ _ _ hp
  · intro i hi hne
    unfold dirSlot
    rw [hdir2]
    unfold splitRewire
    rw [getD_map_range _ _ i hi]
    rw [hb] at hne
    rw [if_neg (by exact hne)]
  · intro i hi heq
    unfold dirSlot
    rw [hdir2]
    unfold splitRewire
    rw [getD_map_range _ _ i hi]
    rw [hb] at heq
    rw [if_pos (by exact heq), hd]

/-- Witness for `splitStep_spec` at `c4tab` (full bucket of depth 0 at
global depth 0): the directory doubles and the entries separate on
bit 0. -/
theorem splitStep_spec_witness :
    (splitStep idHash c4tab 0).global_depth = 1 ∧
    (splitStep idHash c4tab 0).bucket_cnt = c4tab.bucket_cnt + 1 ∧
    (splitStep idHash c4tab 0).pool.getD c4tab.pool.length emptyBucket =
      { depth := 1, cell := [(0, 10)] } ∧
    (splitStep idHash c4tab 0).pool.getD (c4tab.pool.length + 1) emptyBucket =
      { depth := 1, cell := [(1, 11)] } := by
  have hs := splitStep_spec idHash c4tab 0 0 0
    (if (bucketAt c4tab (indexOf idHash c4tab 0)).depth = c4tab.global_depth
     then doubleDir c4tab else c4tab)
    (by decide) (by decide) rfl (by decide)
  refine ⟨(hs.2.1 (by decide)).1, hs.2.2.2.1, ?_, ?_⟩
  · have h5 := hs.2.2.2.2.2.1
    rw [h5]
    decide
  · have h6 := hs.2.2.2.2.2.2.1
    rw [h6]
    decide

/-! ## Claim C4: upsert -/

/-- C4 counterexample: the claim says an `Insert` of a key already
present overwrites without restructuring, but when the target bucket
is full the code runs the overflow loop before the upsert check:
inserting key 0 (already present) into the reachable table `c4tab`
changes the directory length, the global depth, and the bucket count
(while the lookup does still yield the new value). -/
theorem insert_present_restructures :
    runTable idHash 2 [TOp.ins 5 0 10, TOp.ins 5 1 11] = some c4tab ∧
    (tableFind idHash c4tab 0).isSome = true ∧
    (tableInsert idHash 5 c4tab 0 12).map (fun t2 => t2.dir.length) ≠
      some c4tab.dir.length ∧
    (tableInsert idHash 5 c4tab 0 12).map HTable.global_depth ≠ some c4tab.global_depth ∧
    (tableInsert idHash 5 c4tab 0 12).map HTable.bucket_cnt ≠ some c4tab.bucket_cnt ∧
    (tableInsert idHash 5 c4tab 0 12).map (fun t2 => tableFind idHash t2 0) =
      some (some 12) := by
  decide

/-- C4 (amended: restricted to the case where the target bucket is not
full; a full target bucket is split first, changing the directory —
see the counterexample): if key `k` is present in its target bucket
and that bucket is not full, `Insert(k, v)` overwrites the stored
value in place: the call succeeds for every fuel, a subsequent
`Find(k)` yields `v`, and the directory, global depth, bucket count,
and number of pool buckets are unchanged. -/
theorem tableInsert_upsert_not_full (h : Int → Nat) (t : HTable) (k v : Int) (fuel : Nat)
    (hfound : (alookup (bucketAt t (indexOf h t k)).cell k).isSome = true)
    (hnotfull : ¬ (bucketAt t (indexOf h t k)).cell.length = t.bucket_size)
    (hdir : dirSlot t (indexOf h t k) < t.pool.length) :
    tableInsert h fuel t k v =
      some (setBucketCell t (indexOf h t k) (aset (bucketAt t (indexOf h t k)).cell k v)) ∧
    tableFind h (setBucketCell t (indexOf h t k) (aset (bucketAt t (indexOf h t k)).cell k v))
      k = some v ∧
    (setBucketCell t (indexOf h t k) (aset (bucketAt t (indexOf h t k)).cell k v)).dir =
      t.dir ∧
    (setBucketCell t (indexOf h t k)
      (aset (bucketAt t (indexOf h t k)).cell k v)).global_depth = t.global_depth ∧
    (setBucketCell t (indexOf h t k)
      (aset (bucketAt t (indexOf h t k)).cell k v)).bucket_cnt = t.bucket_cnt ∧
    (setBucketCell t (indexOf h t k)
      (aset (bucketAt t (indexOf h t k)).cell k v)).pool.length = t.pool.length := by
  have hloop : insertLoop h fuel t k = some t := insertLoop_not_full h fuel t k hnotfull
  have hins := tableInsert_some h fuel t k v t hloop
  rw [if_pos hfound] at hins
  refine ⟨hins, ?_, rfl, rfl, rfl, ?_⟩
  · unfold tableFind
    have hbk : bucketAt (setBucketCell t (indexOf h t k)
        (aset (bucketAt t (indexOf h t k)).cell k v))
        (indexOf h (setBucketCell t (indexOf h t k)
          (aset (bucketAt t (indexOf h t k)).cell k v)) k) =
        { bucketAt t (indexOf h t k) with cell := aset (bucketAt t (indexOf h t k)).cell k v } := by
      show (t.pool.set (dirSlot t (indexOf h t k)) _).getD (dirSlot t (indexOf h t k))
        emptyBucket = _
      rw [getD_set_bucket]
      rw [if_pos (And.intro rfl hdir)]
    rw [hbk]
    exact alookup_aset_self v hfound
  · show (t.pool.set (dirSlot t (indexOf h t k)) _).length = t.pool.length
    exact List.length_set t.pool _ _

/-- Witness for `tableInsert_upsert_not_full` at `c4small`. -/
theorem tableInsert_upsert_not_full_witness :
    tableInsert idHash 3 c4small 0 12 =
      some (setBucketCell c4small (indexOf idHash c4small 0)
        (aset (bucketAt c4small (indexOf idHash c4small 0)).cell 0 12)) ∧
    (setBucketCell c4small (indexOf idHash c4small 0)
      (aset (bucketAt c4small (indexOf idHash c4small 0)).cell 0 12)).global_depth =
      c4small.global_depth := by
  have hw := tableInsert_upsert_not_full idHash c4small 0 12 3 (by decide) (by decide) (by decide)
  exact ⟨hw.1, hw.2.2.2.1⟩

/-! ## Structural lemmas about the replacer operations -/

theorem getD_set_page (pages : List Page) (p q : Nat) (b : Page) :
    (pages.set p b).getD q defaultPage =
      if p = q ∧ p < pages.length then b else pages.getD q defaultPage := by
  by_cases hpq : p = q
  · subst hpq
    by_cases hp : p < pages.length
    · rw [if_pos (And.intro rfl hp)]
      rw [List.getD_eq_getElem _ _ (by simpa using hp)]
      simp
    · have hcond : ¬ (p = p ∧ p < pages.length) := fun hc => hp hc.2
      rw [if_neg hcond]
      rw [List.getD_eq_default _ _ (by simpa using not_lt.mp hp),
          List.getD_eq_default _ _ (not_lt.mp hp)]
  · have hcond : ¬ (p = q ∧ p < pages.length) := fun hc => hpq hc.1
    rw [if_neg hcond]
    simp [List.getD_eq_getD_get?, List.get?_eq_getElem?, List.getElem?_set_ne hpq]

theorem recordAccess_flag (r : Replacer) (f : Int) :
    (recordAccess r f).evict_flag = r.evict_flag := by
  by_cases h1 : (r.replacer_size : Int) ≤ f
  · simp [recordAccess, h1]
  · by_cases h2 : (alookup r.last_map f).isSome = true
    · simp [recordAccess, h1, h2]
    · by_cases h3 : r.k ≤ ((alookup r.hist_map f).getD []).length + 1
      · simp [recordAccess, h1, h2, h3]
      · simp [recordAccess, h1, h2, h3]

theorem recordAccess_keys (r : Replacer) (f g : Int) :
    (g ∈ akeys (recordAccess r f).hist_map → g ∈ akeys r.hist_map ∨ g = f) ∧
    (g ∈ akeys (recordAccess r f).last_map → g ∈ akeys r.last_map ∨ g = f) := by
  by_cases h1 : (r.replacer_size : Int) ≤ f
  · simp only [recordAccess, if_pos h1]
    exact ⟨fun hm => Or.inl hm, fun hm => Or.inl hm⟩
  · by_cases h2 : (alookup r.last_map f).isSome = true
    · refine ⟨?_, ?_⟩ <;> simp only [recordAccess, if_neg h1, if_pos h2]
      · exact fun hm => Or.inl hm
      · exact fun hm => akeys_aupdate_mem hm
    · by_cases h3 : r.k ≤ ((alookup r.hist_map f).getD [] ++ [r.current_timestamp + 1]).length
      · refine ⟨?_, ?_⟩ <;>
          simp only [recordAccess, if_neg h1, if_neg h2, if_pos h3]
        · exact fun hm => Or.inl (akeys_aerase_sub hm)
        · exact fun hm => akeys_aupdate_mem hm
      · refine ⟨?_, ?_⟩ <;>
          simp only [recordAccess, if_neg h1, if_neg h2, if_neg h3]
        · exact fun hm => akeys_aupdate_mem hm
        · exact fun hm => Or.inl hm

theorem setEvictable_maps (r : Replacer) (f : Int) (b : Bool) :
    (setEvictable r f b).hist_map = r.hist_map ∧ (setEvictable r f b).last_map = r.last_map := by
  unfold setEvictable
  by_cases h1 : (b = true ∧ (alookup r.hist_map f).isNone = true ∧
      (alookup r.last_map f).isNone = true)
  · rw [if_pos h1]
    exact ⟨rfl, rfl⟩
  · rw [if_neg h1]
    by_cases h2 : b = true
    · rw [if_pos h2]
      exact ⟨rfl, rfl⟩
    · rw [if_neg h2]
      exact ⟨rfl, rfl⟩

theorem setEvictable_false_flag (r : Replacer) (f : Int) :
    (setEvictable r f false).evict_flag = r.evict_flag.erase f := by
  simp [setEvictable]

theorem setEvictable_true_mem (r : Replacer) (f g : Int)
    (hm : g ∈ (setEvictable r f true).evict_flag) : g ∈ r.evict_flag ∨ g = f := by
  unfold setEvictable at hm
  by_cases h1 : (true = true ∧ (alookup r.hist_map f).isNone = true ∧
      (alookup r.last_map f).isNone = true)
  · rw [if_pos h1] at hm
    exact Or.inl hm
  · rw [if_neg h1, if_pos rfl] at hm
    by_cases h2 : f ∈ r.evict_flag
    · rw [if_pos h2] at hm
      exact Or.inl hm
    · rw [if_neg h2] at hm
      rcases List.mem_append.mp hm with hm2 | hm2
      · exact Or.inl hm2
      · right
        simpa using hm2

theorem setEvictable_true_nodup (r : Replacer) (f : Int)
    (hnd : r.evict_flag.Nodup) : (setEvictable r f true).evict_flag.Nodup := by
  unfold setEvictable
  by_cases h1 : (true = true ∧ (alookup r.hist_map f).isNone = true ∧
      (alookup r.last_map f).isNone = true)
  · rw [if_pos h1]
    exact hnd
  · rw [if_neg h1, if_pos rfl]
    by_cases h2 : f ∈ r.evict_flag
    · rw [if_pos h2]
      exact hnd
    · rw [if_neg h2]
      rw [List.nodup_append]
      exact ⟨hnd, List.nodup_singleton f, by
        intro a ha hb
        simp at hb
        subst hb
        exact h2 ha⟩

theorem setEvictable_true_self_mem (r : Replacer) (f : Int)
    (htr : ¬ ((alookup r.hist_map f).isNone = true ∧ (alookup r.last_map f).isNone = true)) :
    f ∈ (setEvictable r f true).evict_flag := by
  unfold setEvictable
  rw [if_neg (fun hc => htr hc.2), if_pos rfl]
  by_cases h2 : f ∈ r.evict_flag
  · rw [if_pos h2]
    exact h2
  · rw [if_neg h2]
    simp

theorem removeFrame_state (r : Replacer) (f : Int) :
    (removeFrame r f).hist_map = aerase r.hist_map f ∧
    (removeFrame r f).last_map = aerase r.last_map f ∧
    (removeFrame r f).evict_flag = r.evict_flag.erase f :=
  ⟨rfl, rfl, rfl⟩

/-- The four-way structural case analysis of `Evict`: each tracking
map either survives intact or loses exactly one key, the flag set
either survives or loses one element, and a returned victim was a
tracked frame. -/
theorem evict_cases (r : Replacer) :
    ((evict r).2.hist_map = r.hist_map ∨
      (∃ f, (evict r).2.hist_map = aerase r.hist_map f)) ∧
    ((evict r).2.last_map = r.last_map ∨
      (∃ f, (evict r).2.last_map = aerase r.last_map f)) ∧
    ((evict r).2.evict_flag = r.evict_flag ∨
      (∃ f, (evict r).2.evict_flag = r.evict_flag.erase f)) ∧
    (∀ f, (evict r).1 = some f → f ∈ akeys r.hist_map ∨ f ∈ akeys r.last_map) := by
  by_cases hemp : r.hist_map = [] ∧ r.last_map = []
  · have hev : evict r = (none, { r with current_timestamp := r.current_timestamp + 1 }) := by
      simp [evict, hemp.1, hemp.2]
    rw [hev]
    exact ⟨Or.inl rfl, Or.inl rfl, Or.inl rfl, fun f hf => by simp at hf⟩
  · by_cases hcase : (alookup r.hist_map
        (scanMin r.evict_flag (r.hist_map.map (fun kv => (kv.1, kv.2.headD 0)))
          (-1, r.current_timestamp + 1)).1).isSome = true
    · have hev : evict r =
          (some (scanMin r.evict_flag (r.hist_map.map (fun kv => (kv.1, kv.2.headD 0)))
              (-1, r.current_timestamp + 1)).1,
           { r with current_timestamp := r.current_timestamp + 1,
                    hist_map := aerase r.hist_map
                      (scanMin r.evict_flag (r.hist_map.map (fun kv => (kv.1, kv.2.headD 0)))
                        (-1, r.current_timestamp + 1)).1,
                    evict_flag := r.evict_flag.erase
                      (scanMin r.evict_flag (r.hist_map.map (fun kv => (kv.1, kv.2.headD 0)))
                        (-1, r.current_timestamp + 1)).1 }) := by
        simp only [evict]
        rw [if_neg (by simpa using hemp), if_pos (by simpa using hcase)]
      rw [hev]
      refine ⟨Or.inr ⟨_, rfl⟩, Or.inl rfl, Or.inr ⟨_, rfl⟩, ?_⟩
      intro f hf
      injection hf with hf
      subst hf
      exact Or.inl ((alookup_isSome_iff _ _).mp hcase)
    · by_cases hc2 : (scanMin r.evict_flag r.last_map
          (scanMin r.evict_flag (r.hist_map.map (fun kv => (kv.1, kv.2.headD 0)))
            (-1, r.current_timestamp + 1))).1 = -1
      · have hev : evict r =
            (none, { r with current_timestamp := r.current_timestamp + 1 }) := by
          simp only [evict]
          rw [if_neg (by simpa using hemp), if_neg (by simpa using hcase), if_pos hc2]
        rw [hev]
        exact ⟨Or.inl rfl, Or.inl rfl, Or.inl rfl, fun f hf => by simp at hf⟩
      · have hev : evict r =
            (some (scanMin r.evict_flag r.last_map
                (scanMin r.evict_flag (r.hist_map.map (fun kv => (kv.1, kv.2.headD 0)))
                  (-1, r.current_timestamp + 1))).1,
             { r with current_timestamp := r.current_timestamp + 1,
                      last_map := aerase r.last_map
                        (scanMin r.evict_flag r.last_map
                          (scanMin r.evict_flag
                            (r.hist_map.map (fun kv => (kv.1, kv.2.headD 0)))
                            (-1, r.current_timestamp + 1))).1,
                      evict_flag := r.evict_flag.erase
                        (scanMin r.evict_flag r.last_map
                          (scanMin r.evict_flag
                            (r.hist_map.map (fun kv => (kv.1, kv.2.headD 0)))
                            (-1, r.current_timestamp + 1))).1 }) := by
          simp only [evict]
          rw [if_neg (by simpa using hemp), if_neg (by simpa using hcase), if_neg hc2]
        rw [hev]
        refine ⟨Or.inl rfl, Or.inr ⟨_, rfl⟩, Or.inr ⟨_, rfl⟩, ?_⟩
        intro f hf
        injection hf with hf
        subst hf
        have horig2 := scanMin_origin r.evict_flag r.last_map
          (scanMin r.evict_flag (r.hist_map.map (fun kv => (kv.1, kv.2.headD 0)))
            (-1, r.current_timestamp + 1))
        rcases horig2 with heq2 | ⟨hmem2, _, _⟩
        · exfalso
          have horig := scanMin_origin r.evict_flag
            (r.hist_map.map (fun kv => (kv.1, kv.2.headD 0))) (-1, r.current_timestamp + 1)
          rcases horig with heq | ⟨hmem, _, _⟩
          · rw [heq2, heq] at hc2
            exact hc2 rfl
          · have hk : (scanMin r.evict_flag
                (r.hist_map.map (fun kv => (kv.1, kv.2.headD 0)))
                (-1, r.current_timestamp + 1)).1 ∈ akeys r.hist_map := by
              rcases List.mem_map.mp hmem with ⟨kv, hkv, hkve⟩
              exact List.mem_map.mpr ⟨kv, hkv, congrArg Prod.fst hkve⟩
            exact hcase ((alookup_isSome_iff _ _).mpr hk)
        · exact Or.inr (List.mem_map.mpr ⟨_, hmem2, rfl⟩)

/-! ## Claim C9: FlushPage -/

/-- C9: `FlushPage(p)` returns false iff `p` is not resident (leaving
the state unchanged); when `p` is resident it appends a disk write of
the frame's data regardless of the dirty flag, clears the dirty flag,
returns true, and leaves the pin count unchanged. -/
theorem flushPage_spec (h : Int → Nat) (s : BPM) (pid : Int) :
    ((flushPage h s pid).1 = false ↔ tableFind h s.page_table pid = none) ∧
    (tableFind h s.page_table pid = none → (flushPage h s pid).2 = s) ∧
    (∀ fr, tableFind h s.page_table pid = some fr →
      (flushPage h s pid).1 = true ∧
      (flushPage h s pid).2.writes = s.writes ++ [(pid, (getPage s fr).data)] ∧
      (0 ≤ fr → fr.toNat < s.pages.length →
        getPage (flushPage h s pid).2 fr = { getPage s fr with is_dirty := false } ∧
        (getPage (flushPage h s pid).2 fr).pin_count = (getPage s fr).pin_count)) := by
  cases hf : tableFind h s.page_table pid with
  | none =>
      have he : flushPage h s pid = (false, s) := by
        unfold flushPage
        rw [hf]
      rw [he]
      refine ⟨?_, ?_, ?_⟩
      · simp
      · intro _
        rfl
      · intro fr hfr
        cases hfr
  | some fr =>
      have he : flushPage h s pid =
          (true, setPage (writePage s pid (getPage s fr).data) fr
            { getPage s fr with is_dirty := false }) := by
        unfold flushPage
        rw [hf]
      rw [he]
      refine ⟨?_, ?_, ?_⟩
      · simp
      · intro hc
        exact Option.noConfusion hc
      · intro fr2 hfr2
        injection hfr2 with hfr2
        subst hfr2
        refine ⟨rfl, rfl, ?_⟩
        intro hge hlt
        have hpg : getPage (setPage (writePage s pid (getPage s fr).data) fr
            { getPage s fr with is_dirty := false }) fr =
            { getPage s fr with is_dirty := false } := by
          show (s.pages.set fr.toNat _).getD fr.toNat defaultPage = _
          rw [getD_set_page, if_pos (And.intro rfl hlt)]
        rw [hpg]
        exact ⟨rfl, rfl⟩

/-- Witness for `flushPage_spec` at `c8s` (page 0 resident, dirty):
the flush writes, succeeds, clears the dirty flag, keeps the pin. -/
theorem flushPage_spec_witness :
    (flushPage idHash c8s 0).1 = true ∧
    (flushPage idHash c8s 0).2.writes = c8s.writes ++ [(0, 0)] ∧
    getPage (flushPage idHash c8s 0).2 0 = { getPage c8s 0 with is_dirty := false } := by
  have hw := (flushPage_spec idHash c8s 0).2.2 0 (by decide)
  have h3 := hw.2.2 (by decide) (by decide)
  exact ⟨hw.1, hw.2.1, h3.1⟩

/-! ## Claim C7: UnpinPage -/

theorem unpinPage_none (h : Int → Nat) (s : BPM) (pid : Int) (d : Bool)
    (hf : tableFind h s.page_table pid = none) : unpinPage h s pid d = (false, s) := by
  unfold unpinPage
  rw [hf]

theorem unpinPage_some (h : Int → Nat) (s : BPM) (pid : Int) (d : Bool) (fr : Int)
    (hf : tableFind h s.page_table pid = some fr) :
    unpinPage h s pid d =
      (if (getPage s fr).pin_count ≤ 0 then (false, s)
       else if (getPage s fr).pin_count - 1 = 0 then
         (true, { setPage s fr { getPage s fr with
                    pin_count := (getPage s fr).pin_count - 1,
                    is_dirty := (getPage s fr).is_dirty || d } with
                  replacer := setEvictable s.replacer fr true })
       else
         (true, setPage s fr { getPage s fr with
                  pin_count := (getPage s fr).pin_count - 1,
                  is_dirty := (getPage s fr).is_dirty || d })) := by
  unfold unpinPage
  rw [hf]
  rfl

/-- C7: `UnpinPage(p, is_dirty)` returns false iff `p` is not resident
or the resident frame's pin count is non-positive, changing no state in
that case; otherwise it decrements the pin count by one, ORs the
`is_dirty` argument into the dirty flag, and marks the frame evictable
exactly when the pin count reaches zero.  The success case assumes the
reachable-state facts that the frame index is valid, the frame is
tracked by the replacer, and a pinned frame is not already flagged
evictable. -/
theorem unpinPage_spec (h : Int → Nat) (s : BPM) (pid : Int) (d : Bool) :
    (tableFind h s.page_table pid = none → unpinPage h s pid d = (false, s)) ∧
    (∀ fr, tableFind h s.page_table pid = some fr →
      ((getPage s fr).pin_count ≤ 0 → unpinPage h s pid d = (false, s)) ∧
      (0 < (getPage s fr).pin_count → 0 ≤ fr → fr.toNat < s.pages.length →
        ¬ ((alookup s.replacer.hist_map fr).isNone = true ∧
           (alookup s.replacer.last_map fr).isNone = true) →
        fr ∉ s.replacer.evict_flag →
        (unpinPage h s pid d).1 = true ∧
        (getPage (unpinPage h s pid d).2 fr).pin_count = (getPage s fr).pin_count - 1 ∧
        (getPage (unpinPage h s pid d).2 fr).is_dirty = ((getPage s fr).is_dirty || d) ∧
        (fr ∈ (unpinPage h s pid d).2.replacer.evict_flag ↔
          (getPage s fr).pin_count - 1 = 0))) := by
  refine ⟨fun hf => unpinPage_none h s pid d hf, ?_⟩
  intro fr hf
  have he := unpinPage_some h s pid d fr hf
  constructor
  · intro hle
    rw [he, if_pos hle]
  · intro hpos hge hlt htr hnf
    have hnle : ¬ (getPage s fr).pin_count ≤ 0 := not_le.mpr hpos
    rw [he, if_neg hnle]
    by_cases hz : (getPage s fr).pin_count - 1 = 0
    · rw [if_pos hz]
      refine ⟨rfl, ?_, ?_, ?_⟩
      · show ((s.pages.set fr.toNat _).getD fr.toNat defaultPage).pin_count = _
        rw [getD_set_page, if_pos (And.intro rfl hlt)]
      · show ((s.pages.set fr.toNat _).getD fr.toNat defaultPage).is_dirty = _
        rw [getD_set_page, if_pos (And.intro rfl hlt)]
      · constructor
        · intro _
          exact hz
        · intro _
          exact setEvictable_true_self_mem s.replacer fr htr
    · rw [if_neg hz]
      refine ⟨rfl, ?_, ?_, ?_⟩
      · show ((s.pages.set fr.toNat _).getD fr.toNat defaultPage).pin_count = _
        rw [getD_set_page, if_pos (And.intro rfl hlt)]
      · show ((s.pages.set fr.toNat _).getD fr.toNat defaultPage).is_dirty = _
        rw [getD_set_page, if_pos (And.intro rfl hlt)]
      · constructor
        · intro hm
          exact absurd hm hnf
        · intro hc
          exact absurd hc hz

/-- Witness for `unpinPage_spec` at `c7s` (page 0 pinned once):
unpinning dirties, drops the pin to zero, and flags frame 0. -/
theorem unpinPage_spec_witness :
    (unpinPage idHash c7s 0 true).1 = true ∧
    (getPage (unpinPage idHash c7s 0 true).2 0).is_dirty = true ∧
    (0 : Int) ∈ (unpinPage idHash c7s 0 true).2.replacer.evict_flag := by
  have hw := (unpinPage_spec idHash c7s 0 true).2 0 (by decide)
  have h2 := hw.2 (by decide) (by decide) (by decide) (by decide) (by decide)
  exact ⟨h2.1, by rw [h2.2.2.1]; decide, h2.2.2.2.mpr (by decide)⟩

/-! ## Claim C8: DeletePage -/

theorem tableFind_tableRemove_self (h : Int → Nat) (t : HTable) (key : Int)
    (hdir : dirSlot t (indexOf h t key) < t.pool.length)
    (hnd : (akeys (bucketAt t (indexOf h t key)).cell).Nodup) :
    tableFind h (tableRemove h t key).2 key = none := by
  have hbk : bucketAt (tableRemove h t key).2 (indexOf h (tableRemove h t key).2 key) =
      { bucketAt t (indexOf h t key) with
        cell := aerase (bucketAt t (indexOf h t key)).cell key } := by
    show (t.pool.set (dirSlot t (indexOf h t key)) _).getD (dirSlot t (indexOf h t key))
      emptyBucket = _
    rw [getD_set_bucket, if_pos (And.intro rfl hdir)]
  unfold tableFind
  rw [hbk]
  exact alookup_aerase_self hnd

theorem deletePage_absent (h : Int → Nat) (s : BPM) (pid : Int)
    (hf : tableFind h s.page_table pid = none) : deletePage h s pid = (true, s) := by
  unfold deletePage
  rw [hf]

theorem deletePage_pinned (h : Int → Nat) (s : BPM) (pid fr : Int)
    (hf : tableFind h s.page_table pid = some fr)
    (hp : 0 < (getPage s fr).pin_count) : deletePage h s pid = (false, s) := by
  unfold deletePage
  rw [hf]
  show (if 0 < (getPage s fr).pin_count then ((false, s) : Bool × BPM) else _) = _
  rw [if_pos hp]

theorem deletePage_unpinned_dirty (h : Int → Nat) (s : BPM) (pid fr : Int)
    (hf : tableFind h s.page_table pid = some fr)
    (hnp : ¬ 0 < (getPage s fr).pin_count)
    (hd : (getPage s fr).is_dirty = true) :
    deletePage h s pid = (true,
      { pool_size := s.pool_size,
        pages := (s.pages.set fr.toNat { getPage s fr with is_dirty := false }).set
          fr.toNat defaultPage,
        page_table := (tableRemove h s.page_table pid).2,
        replacer := removeFrame s.replacer fr,
        free_list := s.free_list ++ [fr],
        next_page_id := s.next_page_id,
        disk := aupdate s.disk (getPage s fr).page_id (getPage s fr).data,
        writes := s.writes ++ [((getPage s fr).page_id, (getPage s fr).data)] }) := by
  unfold deletePage
  rw [hf]
  show (if 0 < (getPage s fr).pin_count then ((false, s) : Bool × BPM) else _) = _
  rw [if_neg hnp]
  simp only [hd, if_true]
  rfl

theorem deletePage_unpinned_clean (h : Int → Nat) (s : BPM) (pid fr : Int)
    (hf : tableFind h s.page_table pid = some fr)
    (hnp : ¬ 0 < (getPage s fr).pin_count)
    (hd : (getPage s fr).is_dirty = false) :
    deletePage h s pid = (true,
      { pool_size := s.pool_size,
        pages := s.pages.set fr.toNat defaultPage,
        page_table := (tableRemove h s.page_table pid).2,
        replacer := removeFrame s.replacer fr,
        free_list := s.free_list ++ [fr],
        next_page_id := s.next_page_id,
        disk := s.disk,
        writes := s.writes }) := by
  unfold deletePage
  rw [hf]
  show (if 0 < (getPage s fr).pin_count then ((false, s) : Bool × BPM) else _) = _
  rw [if_neg hnp]
  simp only [hd, Bool.false_eq_true, if_false]
  rfl

/-- C8: `DeletePage(p)` returns true when `p` is not resident, leaving
the state unchanged; returns false when the resident frame is pinned,
leaving the state unchanged; and otherwise appends a disk write of the
frame iff it is dirty, removes the page-table entry and the replacer
record, resets the frame to an invalid page id with zero pin count and
a clear dirty flag, appends the frame to the free list, and returns
true.  The success case assumes the reachable-state facts that the
frame and directory-slot indices are valid and the relevant key lists
have no duplicates. -/
theorem deletePage_spec (h : Int → Nat) (s : BPM) (pid : Int) :
    (tableFind h s.page_table pid = none → deletePage h s pid = (true, s)) ∧
    (∀ fr, tableFind h s.page_table pid = some fr →
      (0 < (getPage s fr).pin_count → deletePage h s pid = (false, s)) ∧
      (¬ 0 < (getPage s fr).pin_count →
        0 ≤ fr → fr.toNat < s.pages.length →
        dirSlot s.page_table (indexOf h s.page_table pid) < s.page_table.pool.length →
        (akeys (bucketAt s.page_table (indexOf h s.page_table pid)).cell).Nodup →
        (akeys s.replacer.hist_map).Nodup →
        (akeys s.replacer.last_map).Nodup →
        s.replacer.evict_flag.Nodup →
        (deletePage h s pid).1 = true ∧
        (deletePage h s pid).2.writes =
          (if (getPage s fr).is_dirty then
            s.writes ++ [((getPage s fr).page_id, (getPage s fr).data)] else s.writes) ∧
        tableFind h (deletePage h s pid).2.page_table pid = none ∧
        alookup (deletePage h s pid).2.replacer.hist_map fr = none ∧
        alookup (deletePage h s pid).2.replacer.last_map fr = none ∧
        fr ∉ (deletePage h s pid).2.replacer.evict_flag ∧
        getPage (deletePage h s pid).2 fr = defaultPage ∧
        (deletePage h s pid).2.free_list = s.free_list ++ [fr])) := by
  refine ⟨fun hf => deletePage_absent h s pid hf, ?_⟩
  intro fr hf
  refine ⟨fun hp => deletePage_pinned h s pid fr hf hp, ?_⟩
  intro hnp hge hlt hdir hndc hndh hndl hndf
  by_cases hd : (getPage s fr).is_dirty = true
  · rw [deletePage_unpinned_dirty h s pid fr hf hnp hd]
    refine ⟨rfl, ?_, ?_, ?_, ?_, ?_, ?_, rfl⟩
    · rw [if_pos hd]
    · exact tableFind_tableRemove_self h s.page_table pid hdir hndc
    · exact alookup_aerase_self hndh
    · exact alookup_aerase_self hndl
    · exact hndf.not_mem_erase
    · show ((s.pages.set fr.toNat _).set fr.toNat defaultPage).getD fr.toNat defaultPage = _
      rw [getD_set_page]
      rw [if_pos (And.intro rfl (by rw [List.length_set]; exact hlt))]
  · have hdf : (getPage s fr).is_dirty = false := by
      cases hb : (getPage s fr).is_dirty
      · rfl
      · exact absurd hb hd
    rw [deletePage_unpinned_clean h s pid fr hf hnp hdf]
    refine ⟨rfl, ?_, ?_, ?_, ?_, ?_, ?_, rfl⟩
    · rw [if_neg (by simp [hdf])]
    · exact tableFind_tableRemove_self h s.page_table pid hdir hndc
    · exact alookup_aerase_self hndh
    · exact alookup_aerase_self hndl
    · exact hndf.not_mem_erase
    · show (s.pages.set fr.toNat defaultPage).getD fr.toNat defaultPage = _
      rw [getD_set_page, if_pos (And.intro rfl hlt)]

/-- Witness for `deletePage_spec` at `c8s` (page 0 unpinned and
dirty): the delete writes the page back, unmaps it, clears the
replacer record, and frees the frame. -/
theorem deletePage_spec_witness :
    (deletePage idHash c8s 0).1 = true ∧
    (deletePage idHash c8s 0).2.writes = [(0, 0)] ∧
    tableFind idHash (deletePage idHash c8s 0).2.page_table 0 = none ∧
    getPage (deletePage idHash c8s 0).2 0 = defaultPage ∧
    (deletePage idHash c8s 0).2.free_list = [1, 0] := by
  have hw := ((deletePage_spec idHash c8s 0).2 0 (by decide)).2 (by decide) (by decide)
    (by decide) (by decide) (by decide) (by decide) (by decide) (by decide)
  refine ⟨hw.1, ?_, hw.2.2.1, hw.2.2.2.2.2.2.1, ?_⟩
  · rw [hw.2.1]
    decide
  · rw [hw.2.2.2.2.2.2.2]
    decide

/-- When `Evict` returns `none` it has only bumped the clock. -/
theorem evict_none_state (r : Replacer) (hn : (evict r).1 = none) :
    (evict r).2.hist_map = r.hist_map ∧ (evict r).2.last_map = r.last_map ∧
    (evict r).2.evict_flag = r.evict_flag := by
  by_cases hemp : r.hist_map = [] ∧ r.last_map = []
  · have hev : evict r = (none, { r with current_timestamp := r.current_timestamp + 1 }) := by
      simp [evict, hemp.1, hemp.2]
    rw [hev]
    exact ⟨rfl, rfl, rfl⟩
  · by_cases hcase : (alookup r.hist_map
        (scanMin r.evict_flag (r.hist_map.map (fun kv => (kv.1, kv.2.headD 0)))
          (-1, r.current_timestamp + 1)).1).isSome = true
    · exfalso
      have hev1 : (evict r).1 = some (scanMin r.evict_flag
          (r.hist_map.map (fun kv => (kv.1, kv.2.headD 0)))
          (-1, r.current_timestamp + 1)).1 := by
        simp only [evict]
        rw [if_neg (by simpa using hemp), if_pos (by simpa using hcase)]
      rw [hev1] at hn
      cases hn
    · by_cases hc2 : (scanMin r.evict_flag r.last_map
          (scanMin r.evict_flag (r.hist_map.map (fun kv => (kv.1, kv.2.headD 0)))
            (-1, r.current_timestamp + 1))).1 = -1
      · have hev : evict r =
            (none, { r with current_timestamp := r.current_timestamp + 1 }) := by
          simp only [evict]
          rw [if_neg (by simpa using hemp), if_neg (by simpa using hcase), if_pos hc2]
        rw [hev]
        exact ⟨rfl, rfl, rfl⟩
      · exfalso
        have hev1 : (evict r).1 = some (scanMin r.evict_flag r.last_map
            (scanMin r.evict_flag (r.hist_map.map (fun kv => (kv.1, kv.2.headD 0)))
              (-1, r.current_timestamp + 1))).1 := by
          simp only [evict]
          rw [if_neg (by simpa using hemp), if_neg (by simpa using hcase), if_neg hc2]
        rw [hev1] at hn
        cases hn

/-! ## Claim C10: failed NewPage / FetchPage -/

theorem pickFrame_none (h : Int → Nat) (s : BPM)
    (hfree : s.free_list = []) (hev : (evict s.replacer).1 = none) :
    pickFrame h s = (none, { s with replacer := (evict s.replacer).2 }) := by
  unfold pickFrame
  rw [hfree]
  have hx : evict s.replacer = (none, (evict s.replacer).2) := by
    rw [← hev]
  rw [hx]

theorem newPage_fail (h : Int → Nat) (fuel : Nat) (s : BPM)
    (hfree : s.free_list = []) (hev : (evict s.replacer).1 = none) :
    newPage h fuel s = some (none, { s with replacer := (evict s.replacer).2 }) := by
  unfold newPage
  rw [pickFrame_none h s hfree hev]

theorem fetchPage_fail (h : Int → Nat) (fuel : Nat) (s : BPM) (pid : Int)
    (hmiss : tableFind h s.page_table pid = none)
    (hfree : s.free_list = []) (hev : (evict s.replacer).1 = none) :
    fetchPage h fuel s pid = some (false, { s with replacer := (evict s.replacer).2 }) := by
  unfold fetchPage
  rw [hmiss, pickFrame_none h s hfree hev]

/-- C10: when the free list is empty and the replacer has no victim,
`NewPage` and `FetchPage` (on a non-resident page id) fail and leave
every component of the manager state unchanged — frames, page table,
free list, page-id counter, disk image, and write trace; the
replacer's tracking maps and evictable flags are also unchanged (only
its internal logical clock, which `Evict` always advances, ticks). -/
theorem newFetch_fail_preserves (h : Int → Nat) (fuel : Nat) (s : BPM) (pid : Int)
    (hfree : s.free_list = []) (hev : (evict s.replacer).1 = none)
    (hmiss : tableFind h s.page_table pid = none) :
    newPage h fuel s = some (none, { s with replacer := (evict s.replacer).2 }) ∧
    fetchPage h fuel s pid = some (false, { s with replacer := (evict s.replacer).2 }) ∧
    ({ s with replacer := (evict s.replacer).2 }).pages = s.pages ∧
    ({ s with replacer := (evict s.replacer).2 }).page_table = s.page_table ∧
    ({ s with replacer := (evict s.replacer).2 }).free_list = s.free_list ∧
    ({ s with replacer := (evict s.replacer).2 }).next_page_id = s.next_page_id ∧
    ({ s with replacer := (evict s.replacer).2 }).disk = s.disk ∧
    ({ s with replacer := (evict s.replacer).2 }).writes = s.writes ∧
    (evict s.replacer).2.hist_map = s.replacer.hist_map ∧
    (evict s.replacer).2.last_map = s.replacer.last_map ∧
    (evict s.replacer).2.evict_flag = s.replacer.evict_flag := by
  have hstate := evict_none_state s.replacer hev
  exact ⟨newPage_fail h fuel s hfree hev, fetchPage_fail h fuel s pid hmiss hfree hev,
    rfl, rfl, rfl, rfl, rfl, rfl, hstate.1, hstate.2.1, hstate.2.2⟩

/-- Witness for `newFetch_fail_preserves` at `c10s` (both frames
pinned, free list empty): a failed `NewPage` does not consume a page
id and leaves the tracking state intact. -/
theorem newFetch_fail_preserves_witness :
    newPage idHash 9 c10s = some (none, { c10s with replacer := (evict c10s.replacer).2 }) ∧
    fetchPage idHash 9 c10s 5 =
      some (false, { c10s with replacer := (evict c10s.replacer).2 }) ∧
    (evict c10s.replacer).2.hist_map = c10s.replacer.hist_map := by
  have hw := newFetch_fail_preserves idHash 9 c10s 5 (by decide) (by decide) (by decide)
  exact ⟨hw.1, hw.2.1, hw.2.2.2.2.2.2.2.2.1⟩

/-! ## Non-negative page-table values are preserved -/

theorem getD_mem_or_default {α : Type} (l : List α) (q : Nat) (d : α) :
    l.getD q d ∈ l ∨ l.getD q d = d := by
  by_cases hq : q < l.length
  · left
    rw [List.getD_eq_getElem _ _ hq]
    exact List.getElem_mem hq
  · right
    exact List.getD_eq_default _ _ (not_lt.mp hq)

theorem mem_bucketInsert {bs : Nat} {cell : List (Int × Int)} {k v : Int} {x : Int × Int}
    (hm : x ∈ bucketInsert bs cell k v) : x ∈ cell ∨ x = (k, v) := by
  unfold bucketInsert at hm
  by_cases hc : bs ≤ cell.length
  · rw [if_pos hc] at hm
    exact Or.inl hm
  · rw [if_neg hc] at hm
    rcases List.mem_append.mp hm with h2 | h2
    · exact Or.inl h2
    · right
      simpa using h2

theorem mem_splitCells (h : Int → Nat) (bs depth : Nat) (cell : List (Int × Int)) :
    ∀ acc : List (Int × Int) × List (Int × Int), ∀ x : Int × Int,
      (x ∈ (splitCells h bs depth cell acc).1 → x ∈ cell ∨ x ∈ acc.1) ∧
      (x ∈ (splitCells h bs depth cell acc).2 → x ∈ cell ∨ x ∈ acc.2) := by
  induction cell with
  | nil =>
      intro acc x
      simp [splitCells]
  | cons kv rest ih =>
      intro acc x
      simp only [splitCells]
      by_cases hb : Nat.testBit (h kv.1) depth = true
      · rw [if_pos hb]
        constructor
        · intro hm
          rcases (ih _ x).1 hm with h2 | h2
          · exact Or.inl (List.mem_cons_of_mem _ h2)
          · exact Or.inr h2
        · intro hm
          rcases (ih _ x).2 hm with h2 | h2
          · exact Or.inl (List.mem_cons_of_mem _ h2)
          · rcases mem_bucketInsert h2 with h3 | h3
            · exact Or.inr h3
            · left
              rw [h3]
              exact List.mem_cons_self _ _
      · rw [if_neg hb]
        constructor
        · intro hm
          rcases (ih _ x).1 hm with h2 | h2
          · exact Or.inl (List.mem_cons_of_mem _ h2)
          · rcases mem_bucketInsert h2 with h3 | h3
            · exact Or.inr h3
            · left
              rw [h3]
              exact List.mem_cons_self _ _
        · intro hm
          rcases (ih _ x).2 hm with h2 | h2
          · exact Or.inl (List.mem_cons_of_mem _ h2)
          · exact Or.inr h2

theorem tableFind_val_nonneg (h : Int → Nat) (t : HTable) (k v : Int)
    (htv : TableValsNonneg t) (hf : tableFind h t k = some v) : 0 ≤ v := by
  unfold tableFind at hf
  have hmem := mem_of_alookup_eq_some hf
  unfold bucketAt at hmem
  rcases getD_mem_or_default t.pool (dirSlot t (indexOf h t k)) emptyBucket with hb | hb
  · exact htv _ hb _ hmem
  · rw [hb] at hmem
    simp [emptyBucket] at hmem

theorem splitStep_tvn (h : Int → Nat) (t : HTable) (key : Int)
    (htv : TableValsNonneg t) : TableValsNonneg (splitStep h t key) := by
  intro b hb kv hkv
  have hpool : (splitStep h t key).pool =
      (if (bucketAt t (indexOf h t key)).depth = t.global_depth then doubleDir t else t).pool
      ++ [{ depth := (bucketAt t (indexOf h t key)).depth + 1,
            cell := (splitCells h t.bucket_size (bucketAt t (indexOf h t key)).depth
              (bucketAt t (indexOf h t key)).cell ([], [])).1 },
          { depth := (bucketAt t (indexOf h t key)).depth + 1,
            cell := (splitCells h t.bucket_size (bucketAt t (indexOf h t key)).depth
              (bucketAt t (indexOf h t key)).cell ([], [])).2 }] := rfl
  rw [hpool] at hb
  have hold : ∀ b2, b2 ∈ (if (bucketAt t (indexOf h t key)).depth = t.global_depth
      then doubleDir t else t).pool → b2 ∈ t.pool := by
    intro b2 hb2
    by_cases hc : (bucketAt t (indexOf h t key)).depth = t.global_depth
    · rw [if_pos hc] at hb2
      exact hb2
    · rw [if_neg hc] at hb2
      exact hb2
  have hcell : ∀ x, x ∈ (bucketAt t (indexOf h t key)).cell → 0 ≤ x.2 := by
    intro x hx
    unfold bucketAt at hx
    rcases getD_mem_or_default t.pool (dirSlot t (indexOf h t key)) emptyBucket with h2 | h2
    · exact htv _ h2 _ hx
    · rw [h2] at hx
      simp [emptyBucket] at hx
  rcases List.mem_append.mp hb with h2 | h2
  · exact htv _ (hold b h2) _ hkv
  · rcases List.mem_cons.mp h2 with h3 | h3
    · subst h3
      rcases (mem_splitCells h t.bucket_size (bucketAt t (indexOf h t key)).depth
          (bucketAt t (indexOf h t key)).cell ([], []) kv).1 hkv with h4 | h4
      · exact hcell kv h4
      · simp at h4
    · rcases List.mem_cons.mp h3 with h4 | h4
      · subst h4
        rcases (mem_splitCells h t.bucket_size (bucketAt t (indexOf h t key)).depth
            (bucketAt t (indexOf h t key)).cell ([], []) kv).2 hkv with h5 | h5
        · exact hcell kv h5
        · simp at h5
      · simp at h4

theorem insertLoop_tvn (h : Int → Nat) (fuel : Nat) (t : HTable) (key : Int) (t2 : HTable)
    (htv : TableValsNonneg t) (hrun : insertLoop h fuel t key = some t2) :
    TableValsNonneg t2 := by
  induction fuel generalizing t with
  | zero =>
      by_cases hc : (bucketAt t (indexOf h t key)).cell.length = t.bucket_size
      · rw [insertLoop_full_zero h t key hc] at hrun
        cases hrun
      · rw [insertLoop_not_full h 0 t key hc] at hrun
        cases hrun
        exact htv
  | succ n ih =>
      by_cases hc : (bucketAt t (indexOf h t key)).cell.length = t.bucket_size
      · rw [insertLoop_full_succ h n t key hc] at hrun
        exact ih (splitStep h t key) (splitStep_tvn h t key htv) hrun
      · rw [insertLoop_not_full h (n + 1) t key hc] at hrun
        cases hrun
        exact htv

theorem setBucketCell_tvn (t : HTable) (pos : Nat) (cell : List (Int × Int))
    (htv : TableValsNonneg t) (hcell : ∀ kv ∈ cell, 0 ≤ kv.2) :
    TableValsNonneg (setBucketCell t pos cell) := by
  intro b hb kv hkv
  rcases List.mem_or_eq_of_mem_set hb with h2 | h2
  · exact htv _ h2 _ hkv
  · subst h2
    exact hcell _ hkv

theorem tableInsert_tvn (h : Int → Nat) (fuel : Nat) (t : HTable) (key v : Int) (t2 : HTable)
    (hv : 0 ≤ v) (htv : TableValsNonneg t) (hrun : tableInsert h fuel t key v = some t2) :
    TableValsNonneg t2 := by
  cases hloop : insertLoop h fuel t key with
  | none =>
      unfold tableInsert at hrun
      rw [hloop] at hrun
      exact Option.noConfusion hrun
  | some t1 =>
      have htv1 := insertLoop_tvn h fuel t key t1 htv hloop
      have hcell : ∀ x, x ∈ (bucketAt t1 (indexOf h t1 key)).cell → 0 ≤ x.2 := by
        intro x hx
        unfold bucketAt at hx
        rcases getD_mem_or_default t1.pool (dirSlot t1 (indexOf h t1 key)) emptyBucket with
          h2 | h2
        · exact htv1 _ h2 _ hx
        · rw [h2] at hx
          simp [emptyBucket] at hx
      rw [tableInsert_some h fuel t key v t1 hloop] at hrun
      by_cases hc : (alookup (bucketAt t1 (indexOf h t1 key)).cell key).isSome = true
      · rw [if_pos hc] at hrun
        have he := Option.some.inj hrun
        rw [← he]
        refine setBucketCell_tvn t1 _ _ htv1 ?_
        intro kv hkv
        rcases mem_aset hkv with h2 | h2
        · exact hcell _ h2
        · subst h2
          exact hv
      · rw [if_neg hc] at hrun
        have he := Option.some.inj hrun
        rw [← he]
        refine setBucketCell_tvn t1 _ _ htv1 ?_
        intro kv hkv
        rcases mem_bucketInsert hkv with h2 | h2
        · exact hcell _ h2
        · subst h2
          exact hv

theorem tableRemove_tvn (h : Int → Nat) (t : HTable) (key : Int)
    (htv : TableValsNonneg t) : TableValsNonneg (tableRemove h t key).2 := by
  intro b hb kv hkv
  rcases List.mem_or_eq_of_mem_set hb with h2 | h2
  · exact htv _ h2 _ hkv
  · subst h2
    have h3 := mem_aerase hkv
    unfold bucketAt at h3
    rcases getD_mem_or_default t.pool (dirSlot t (indexOf h t key)) emptyBucket with h4 | h4
    · exact htv _ h4 _ h3
    · rw [h4] at h3
      simp [emptyBucket] at h3

/-! ## Replacer-shrinking transitions -/

theorem shrinks_refl (r : Replacer) : ReplacerShrinks r r :=
  ⟨fun _ hm => hm, fun _ hm => hm, fun _ hm => hm, fun hnd => hnd⟩

theorem shrinks_trans {r r2 r3 : Replacer}
    (h12 : ReplacerShrinks r r2) (h23 : ReplacerShrinks r2 r3) : ReplacerShrinks r r3 :=
  ⟨fun kv hm => h12.1 kv (h23.1 kv hm), fun kv hm => h12.2.1 kv (h23.2.1 kv hm),
   fun g hm => h12.2.2.1 g (h23.2.2.1 g hm), fun hnd => h23.2.2.2 (h12.2.2.2 hnd)⟩

theorem removeFrame_shrinks (r : Replacer) (f : Int) :
    ReplacerShrinks r (removeFrame r f) :=
  ⟨fun _ hm => mem_aerase hm, fun _ hm => mem_aerase hm,
   fun _ hm => List.mem_of_mem_erase hm, fun hnd => hnd.erase f⟩

theorem setEvictable_false_shrinks (r : Replacer) (f : Int) :
    ReplacerShrinks r (setEvictable r f false) := by
  refine ⟨?_, ?_, ?_, ?_⟩
  · intro kv hm
    rw [(setEvictable_maps r f false).1] at hm
    exact hm
  · intro kv hm
    rw [(setEvictable_maps r f false).2] at hm
    exact hm
  · intro g hm
    rw [setEvictable_false_flag] at hm
    exact List.mem_of_mem_erase hm
  · intro hnd
    rw [setEvictable_false_flag]
    exact hnd.erase f

theorem evict_shrinks (r : Replacer) : ReplacerShrinks r (evict r).2 := by
  obtain ⟨hh, hl, hf, _⟩ := evict_cases r
  refine ⟨?_, ?_, ?_, ?_⟩
  · intro kv hm
    rcases hh with he | ⟨f2, he⟩
    · rw [he] at hm
      exact hm
    · rw [he] at hm
      exact mem_aerase hm
  · intro kv hm
    rcases hl with he | ⟨f2, he⟩
    · rw [he] at hm
      exact hm
    · rw [he] at hm
      exact mem_aerase hm
  · intro g hm
    rcases hf with he | ⟨f2, he⟩
    · rw [he] at hm
      exact hm
    · rw [he] at hm
      exact List.mem_of_mem_erase hm
  · intro hnd
    rcases hf with he | ⟨f2, he⟩
    · rw [he]
      exact hnd
    · rw [he]
      exact hnd.erase f2

/-- Transfer of the C2 invariant along a state change that keeps the
pages' pin counts pointwise, only shrinks the replacer, only drops
free-list entries, and keeps the page-table values non-negative. -/
theorem c2inv_of_components (s s2 : BPM) (hInv : C2Inv s)
    (hlen : s2.pages.length = s.pages.length)
    (hpin : ∀ f : Nat, (s2.pages.getD f defaultPage).pin_count =
      (s.pages.getD f defaultPage).pin_count)
    (hshrink : ReplacerShrinks s.replacer s2.replacer)
    (hfree : ∀ f ∈ s2.free_list, f ∈ s.free_list)
    (htvn : TableValsNonneg s2.page_table) : C2Inv s2 := by
  obtain ⟨hpe, hnd, hfr, hkh, hkl, hkf, _⟩ := hInv
  refine ⟨?_, hshrink.2.2.2 hnd, ?_, ?_, ?_, ?_, htvn⟩
  · intro f hf hp
    rw [hlen] at hf
    rw [hpin] at hp
    intro hm
    exact hpe f hf hp (hshrink.2.2.1 _ hm)
  · intro f hm
    exact hfr f (hfree f hm)
  · intro kv hm
    exact hkh kv (hshrink.1 kv hm)
  · intro kv hm
    exact hkl kv (hshrink.2.1 kv hm)
  · intro f hm
    exact hkf f (hshrink.2.2.1 f hm)

/-! ## pickFrame preserves the C2 invariant -/

theorem pickFrame_c2 (h : Int → Nat) (s : BPM) (hInv : C2Inv s) :
    C2Inv (pickFrame h s).2 ∧
    (pickFrame h s).2.pages.length = s.pages.length ∧
    (∀ f : Nat, ((pickFrame h s).2.pages.getD f defaultPage).pin_count =
      (s.pages.getD f defaultPage).pin_count) ∧
    (∀ fr, (pickFrame h s).1 = some fr → 0 ≤ fr) := by
  have hkeynn : ∀ fr : Int, fr ∈ akeys s.replacer.hist_map ∨ fr ∈ akeys s.replacer.last_map →
      0 ≤ fr := by
    intro fr hm
    rcases hm with hm | hm
    · rcases List.mem_map.mp hm with ⟨kv, hkv, hkve⟩
      exact hkve ▸ hInv.2.2.2.1 kv hkv
    · rcases List.mem_map.mp hm with ⟨kv, hkv, hkve⟩
      exact hkve ▸ hInv.2.2.2.2.1 kv hkv
  cases hfl : s.free_list with
  | cons fr rest =>
      have he : pickFrame h s = (some fr, { s with free_list := rest }) := by
        unfold pickFrame
        rw [hfl]
      rw [he]
      refine ⟨?_, rfl, fun _ => rfl, ?_⟩
      · refine c2inv_of_components s _ hInv rfl (fun _ => rfl) (shrinks_refl _) ?_ hInv.2.2.2.2.2.2
        intro f hm
        rw [hfl]
        exact List.mem_cons_of_mem _ hm
      · intro fr2 hfr2
        injection hfr2 with hfr2
        subst hfr2
        exact hInv.2.2.1 fr (hfl ▸ List.mem_cons_self _ _)
  | nil =>
      have hsh : ReplacerShrinks s.replacer (evict s.replacer).2 := evict_shrinks s.replacer
      have hfrnn : ∀ fr, (evict s.replacer).1 = some fr → 0 ≤ fr := by
        intro fr hfr
        exact hkeynn fr ((evict_cases s.replacer).2.2.2 fr hfr)
      cases hevx : evict s.replacer with
      | mk o r2 =>
          have hsh2 : ReplacerShrinks s.replacer r2 := by
            rw [hevx] at hsh
            exact hsh
          cases o with
          | none =>
              have he : pickFrame h s = (none, { s with replacer := r2 }) := by
                unfold pickFrame
                rw [hfl, hevx]
              rw [he]
              refine ⟨?_, rfl, fun _ => rfl, ?_⟩
              · exact c2inv_of_components s _ hInv rfl (fun _ => rfl) hsh2
                  (fun f hm => by rw [hfl] at hm; cases hm) hInv.2.2.2.2.2.2
              · intro fr2 hfr2
                cases hfr2
          | some fr =>
              have hfrnn2 : 0 ≤ fr := by
                apply hfrnn
                rw [hevx]
              by_cases hv : (getPage { s with replacer := r2, free_list := ([] : List Int) }
                  fr).page_id = INVALID_PAGE_ID
              · have he : pickFrame h s = (some fr, { s with replacer := r2 }) := by
                  unfold pickFrame
                  rw [hfl, hevx]
                  show (if (getPage { s with replacer := r2, free_list := ([] : List Int) }
                        fr).page_id = INVALID_PAGE_ID then _ else _) = _
                  rw [if_pos hv]
                rw [he]
                refine ⟨?_, rfl, fun _ => rfl, ?_⟩
                · exact c2inv_of_components s _ hInv rfl (fun _ => rfl) hsh2
                    (fun f hm => by rw [hfl] at hm; cases hm) hInv.2.2.2.2.2.2
                · intro fr2 hfr2
                  injection hfr2 with hfr2
                  subst hfr2
                  exact hfrnn2
              · have hsh3 : ReplacerShrinks s.replacer (removeFrame r2 fr) :=
                  shrinks_trans hsh2 (removeFrame_shrinks r2 fr)
                by_cases hdirt : (getPage { s with replacer := r2, free_list := ([] : List Int) }
                    fr).is_dirty = true
                · have he : pickFrame h s = (some fr,
                      { pool_size := s.pool_size,
                        pages := s.pages.set fr.toNat
                          { getPage s fr with is_dirty := false },
                        page_table :=
                          (tableRemove h s.page_table (getPage s fr).page_id).2,
                        replacer := removeFrame r2 fr,
                        free_list := [],
                        next_page_id := s.next_page_id,
                        disk := aupdate s.disk (getPage s fr).page_id (getPage s fr).data,
                        writes := s.writes ++
                          [((getPage s fr).page_id, (getPage s fr).data)] }) := by
                    unfold pickFrame
                    rw [hfl, hevx]
                    show (if (getPage { s with replacer := r2, free_list := ([] : List Int) }
                          fr).page_id = INVALID_PAGE_ID then _ else _) = _
                    rw [if_neg hv]
                    simp only [hdirt, if_true]
                    rfl
                  rw [he]
                  refine ⟨?_, ?_, ?_, ?_⟩
                  · refine c2inv_of_components s _ hInv ?_ ?_ hsh3
                      (fun f hm => by cases hm)
                      (tableRemove_tvn h s.page_table _ hInv.2.2.2.2.2.2)
                    · show (s.pages.set fr.toNat _).length = s.pages.length
                      exact List.length_set _ _ _
                    · intro f
                      show ((s.pages.set fr.toNat _).getD f defaultPage).pin_count = _
                      rw [getD_set_page]
                      by_cases hc : fr.toNat = f ∧ fr.toNat < s.pages.length
                      · rw [if_pos hc, ← hc.1]
                        rfl
                      · rw [if_neg hc]
                  · show (s.pages.set fr.toNat _).length = s.pages.length
                    exact List.length_set _ _ _
                  · intro f
                    show ((s.pages.set fr.toNat _).getD f defaultPage).pin_count = _
                    rw [getD_set_page]
                    by_cases hc : fr.toNat = f ∧ fr.toNat < s.pages.length
                    · rw [if_pos hc, ← hc.1]
                      rfl
                    · rw [if_neg hc]
                  · intro fr2 hfr2
                    injection hfr2 with hfr2
                    subst hfr2
                    exact hfrnn2
                · have he : pickFrame h s = (some fr,
                      { pool_size := s.pool_size,
                        pages := s.pages,
                        page_table :=
                          (tableRemove h s.page_table (getPage s fr).page_id).2,
                        replacer := removeFrame r2 fr,
                        free_list := [],
                        next_page_id := s.next_page_id,
                        disk := s.disk,
                        writes := s.writes }) := by
                    unfold pickFrame
                    rw [hfl, hevx]
                    show (if (getPage { s with replacer := r2, free_list := ([] : List Int) }
                          fr).page_id = INVALID_PAGE_ID then _ else _) = _
                    rw [if_neg hv]
                    have hdf : (getPage { s with replacer := r2, free_list := ([] : List Int) }
                        fr).is_dirty = false := by
                      cases hb : (getPage { s with replacer := r2, free_list := ([] : List Int) }
                          fr).is_dirty
                      · rfl
                      · exact absurd hb hdirt
                    simp only [hdf, Bool.false_eq_true, if_false]
                    rfl
                  rw [he]
                  refine ⟨?_, rfl, fun _ => rfl, ?_⟩
                  · exact c2inv_of_components s _ hInv rfl (fun _ => rfl) hsh3
                      (fun f hm => by cases hm)
                      (tableRemove_tvn h s.page_table _ hInv.2.2.2.2.2.2)
                  · intro fr2 hfr2
                    injection hfr2 with hfr2
                    subst hfr2
                    exact hfrnn2

/-! ## Each manager operation preserves the C2 invariant -/

/-- Installing a page into frame `fr ≥ 0` (arbitrary page record),
swapping in a page table with non-negative values, recording an access
and clearing the evictable bit preserves the invariant; the remaining
fields are arbitrary except that the free list only drops entries. -/
theorem install_c2 (s1 : BPM) (fr : Int) (pg : Page) (pt : HTable) (nid : Int)
    (dsk wrt : List (Int × Nat)) (fl : List Int) (hInv1 : C2Inv s1) (hfr : 0 ≤ fr)
    (hfl : ∀ f ∈ fl, f ∈ s1.free_list) (htvn : TableValsNonneg pt) :
    C2Inv { pool_size := s1.pool_size,
            pages := s1.pages.set fr.toNat pg,
            page_table := pt,
            replacer := setEvictable (recordAccess s1.replacer fr) fr false,
            free_list := fl, next_page_id := nid, disk := dsk, writes := wrt } := by
  obtain ⟨hpe, hnd, hfre, hkh, hkl, hkf, _⟩ := hInv1
  have hflag : (setEvictable (recordAccess s1.replacer fr) fr false).evict_flag =
      s1.replacer.evict_flag.erase fr := by
    rw [setEvictable_false_flag, recordAccess_flag]
  have hmaps := setEvictable_maps (recordAccess s1.replacer fr) fr false
  refine ⟨?_, ?_, ?_, ?_, ?_, ?_, htvn⟩
  · intro f hf hp
    show Int.ofNat f ∉ (setEvictable (recordAccess s1.replacer fr) fr false).evict_flag
    rw [hflag]
    by_cases hfq : fr.toNat = f
    · subst hfq
      have hofr : Int.ofNat fr.toNat = fr := Int.toNat_of_nonneg hfr
      rw [hofr]
      exact hnd.not_mem_erase
    · intro hm
      have hm2 := List.mem_of_mem_erase hm
      have hp2 : 0 < (s1.pages.getD f defaultPage).pin_count := by
        have hp3 : 0 < ((s1.pages.set fr.toNat pg).getD f defaultPage).pin_count := hp
        rw [getD_set_page, if_neg (fun hc => hfq hc.1)] at hp3
        exact hp3
      have hf2 : f < s1.pages.length := by
        have hf3 : f < (s1.pages.set fr.toNat pg).length := hf
        rwa [List.length_set] at hf3
      exact hpe f hf2 hp2 hm2
  · show (setEvictable (recordAccess s1.replacer fr) fr false).evict_flag.Nodup
    rw [hflag]
    exact hnd.erase fr
  · intro f hm
    exact hfre f (hfl f hm)
  · intro kv hm
    rw [hmaps.1] at hm
    have hk := (recordAccess_keys s1.replacer fr kv.1).1 (List.mem_map.mpr ⟨kv, hm, rfl⟩)
    rcases hk with hk | hk
    · rcases List.mem_map.mp hk with ⟨kv2, hkv2, hkv2e⟩
      rw [← hkv2e]
      exact hkh kv2 hkv2
    · rw [hk]
      exact hfr
  · intro kv hm
    rw [hmaps.2] at hm
    have hk := (recordAccess_keys s1.replacer fr kv.1).2 (List.mem_map.mpr ⟨kv, hm, rfl⟩)
    rcases hk with hk | hk
    · rcases List.mem_map.mp hk with ⟨kv2, hkv2, hkv2e⟩
      rw [← hkv2e]
      exact hkl kv2 hkv2
    · rw [hk]
      exact hfr
  · intro f hm
    show 0 ≤ f
    rw [hflag] at hm
    exact hkf f (List.mem_of_mem_erase hm)

theorem newPage_c2 (h : Int → Nat) (fuel : Nat) (s : BPM) (res : Option Int × BPM)
    (hInv : C2Inv s) (hrun : newPage h fuel s = some res) : C2Inv res.2 := by
  have hpf := pickFrame_c2 h s hInv
  cases hpfx : pickFrame h s with
  | mk o s1 =>
      rw [hpfx] at hpf
      have hInv1 : C2Inv s1 := hpf.1
      cases o with
      | none =>
          have he : newPage h fuel s = some (none, s1) := by
            unfold newPage
            rw [hpfx]
          rw [he] at hrun
          have h2 := Option.some.inj hrun
          rw [← h2]
          exact hInv1
      | some fr =>
          have hfr : 0 ≤ fr := hpf.2.2.2 fr rfl
          have he1 : newPage h fuel s =
              (match tableInsert h fuel (setPage (allocatePage s1).2 fr
                  { page_id := (allocatePage s1).1, pin_count := 1,
                    is_dirty := false, data := 0 }).page_table (allocatePage s1).1 fr with
               | none => none
               | some pt =>
                   some (some (allocatePage s1).1,
                     { pool_size := s1.pool_size,
                       pages := s1.pages.set fr.toNat
                         { page_id := s1.next_page_id, pin_count := 1,
                           is_dirty := false, data := 0 },
                       page_table := pt,
                       replacer := setEvictable (recordAccess s1.replacer fr) fr false,
                       free_list := s1.free_list,
                       next_page_id := s1.next_page_id + 1,
                       disk := s1.disk, writes := s1.writes })) := by
            unfold newPage
            rw [hpfx]
            rfl
          cases hti : tableInsert h fuel (setPage (allocatePage s1).2 fr
              { page_id := (allocatePage s1).1, pin_count := 1,
                is_dirty := false, data := 0 }).page_table (allocatePage s1).1 fr with
          | none =>
              rw [hti] at he1
              rw [he1] at hrun
              exact Option.noConfusion hrun
          | some pt =>
              rw [hti] at he1
              rw [he1] at hrun
              have h2 := Option.some.inj hrun
              rw [← h2]
              refine install_c2 s1 fr _ pt (s1.next_page_id + 1) s1.disk s1.writes
                s1.free_list hInv1 hfr (fun f hm => hm) ?_
              exact tableInsert_tvn h fuel _ _ fr pt hfr hInv1.2.2.2.2.2.2 hti

theorem fetchPage_c2 (h : Int → Nat) (fuel : Nat) (s : BPM) (pid : Int)
    (res : Bool × BPM) (hInv : C2Inv s) (hrun : fetchPage h fuel s pid = some res) :
    C2Inv res.2 := by
  cases hfind : tableFind h s.page_table pid with
  | some fr =>
      have hfr : 0 ≤ fr := tableFind_val_nonneg h s.page_table pid fr hInv.2.2.2.2.2.2 hfind
      have he : fetchPage h fuel s pid = some (true,
          { pool_size := s.pool_size,
            pages := s.pages.set fr.toNat
              { getPage s fr with pin_count := (getPage s fr).pin_count + 1 },
            page_table := s.page_table,
            replacer := setEvictable (recordAccess s.replacer fr) fr false,
            free_list := s.free_list, next_page_id := s.next_page_id,
            disk := s.disk, writes := s.writes }) := by
        unfold fetchPage
        rw [hfind]
        rfl
      rw [he] at hrun
      have h2 := Option.some.inj hrun
      rw [← h2]
      exact install_c2 s fr _ s.page_table s.next_page_id s.disk s.writes s.free_list
        hInv hfr (fun f hm => hm) hInv.2.2.2.2.2.2
  | none =>
      have hpf := pickFrame_c2 h s hInv
      cases hpfx : pickFrame h s with
      | mk o s1 =>
          rw [hpfx] at hpf
          have hInv1 : C2Inv s1 := hpf.1
          cases o with
          | none =>
              have he : fetchPage h fuel s pid = some (false, s1) := by
                unfold fetchPage
                rw [hfind, hpfx]
              rw [he] at hrun
              have h2 := Option.some.inj hrun
              rw [← h2]
              exact hInv1
          | some fr =>
              have hfr : 0 ≤ fr := hpf.2.2.2 fr rfl
              have he1 : fetchPage h fuel s pid =
                  (match tableInsert h fuel (setPage s1 fr
                      { page_id := pid, pin_count := 1, is_dirty := false,
                        data := readPage s1 pid }).page_table pid fr with
                   | none => none
                   | some pt =>
                       some (true,
                         { pool_size := s1.pool_size,
                           pages := s1.pages.set fr.toNat
                             { page_id := pid, pin_count := 1, is_dirty := false,
                               data := readPage s1 pid },
                           page_table := pt,
                           replacer := setEvictable (recordAccess s1.replacer fr) fr false,
                           free_list := s1.free_list, next_page_id := s1.next_page_id,
                           disk := s1.disk, writes := s1.writes })) := by
                unfold fetchPage
                rw [hfind, hpfx]
                rfl
              cases hti : tableInsert h fuel (setPage s1 fr
                  { page_id := pid, pin_count := 1, is_dirty := false,
                    data := readPage s1 pid }).page_table pid fr with
              | none =>
                  rw [hti] at he1
                  rw [he1] at hrun
                  exact Option.noConfusion hrun
              | some pt =>
                  rw [hti] at he1
                  rw [he1] at hrun
                  have h2 := Option.some.inj hrun
                  rw [← h2]
                  refine install_c2 s1 fr _ pt s1.next_page_id s1.disk s1.writes
                    s1.free_list hInv1 hfr (fun f hm => hm) ?_
                  exact tableInsert_tvn h fuel _ _ fr pt hfr hInv1.2.2.2.2.2.2 hti

theorem unpinPage_c2 (h : Int → Nat) (s : BPM) (pid : Int) (d : Bool)
    (hInv : C2Inv s) : C2Inv (unpinPage h s pid d).2 := by
  cases hfind : tableFind h s.page_table pid with
  | none =>
      rw [unpinPage_none h s pid d hfind]
      exact hInv
  | some fr =>
      have hfr : 0 ≤ fr := tableFind_val_nonneg h s.page_table pid fr hInv.2.2.2.2.2.2 hfind
      have he := unpinPage_some h s pid d fr hfind
      by_cases hle : (getPage s fr).pin_count ≤ 0
      · rw [he, if_pos hle]
        exact hInv
      · rw [he, if_neg hle]
        obtain ⟨hpe, hnd, hfre, hkh, hkl, hkf, htv⟩ := hInv
        by_cases hz : (getPage s fr).pin_count - 1 = 0
        · rw [if_pos hz]
          have hmaps := setEvictable_maps s.replacer fr true
          refine ⟨?_, setEvictable_true_nodup _ _ hnd, hfre, ?_, ?_, ?_, htv⟩
          · intro f hf hp hm
            rcases setEvictable_true_mem s.replacer fr _ hm with hm2 | hm2
            · by_cases hfq : fr.toNat = f
              · subst hfq
                have hp3 : 0 < ((s.pages.set fr.toNat { getPage s fr with pin_count := (getPage s fr).pin_count - 1, is_dirty := (getPage s fr).is_dirty || d }).getD fr.toNat defaultPage).pin_count := hp
                have hf3 : fr.toNat < (s.pages.set fr.toNat _).length := hf
                rw [List.length_set] at hf3
                rw [getD_set_page, if_pos (And.intro rfl hf3)] at hp3
                rw [hz] at hp3
                exact absurd hp3 (lt_irrefl 0)
              · have hp3 : 0 < ((s.pages.set fr.toNat { getPage s fr with pin_count := (getPage s fr).pin_count - 1, is_dirty := (getPage s fr).is_dirty || d }).getD f defaultPage).pin_count := hp
                rw [getD_set_page, if_neg (fun hc => hfq hc.1)] at hp3
                have hf3 : f < (s.pages.set fr.toNat _).length := hf
                rw [List.length_set] at hf3
                exact hpe f hf3 hp3 hm2
            · by_cases hfq : fr.toNat = f
              · subst hfq
                have hp3 : 0 < ((s.pages.set fr.toNat { getPage s fr with pin_count := (getPage s fr).pin_count - 1, is_dirty := (getPage s fr).is_dirty || d }).getD fr.toNat defaultPage).pin_count := hp
                have hf3 : fr.toNat < (s.pages.set fr.toNat _).length := hf
                rw [List.length_set] at hf3
                rw [getD_set_page, if_pos (And.intro rfl hf3)] at hp3
                rw [hz] at hp3
                exact absurd hp3 (lt_irrefl 0)
              · apply hfq
                have : Int.ofNat f = fr := hm2
                rw [← this]
                rfl
          · intro kv hm
            rw [hmaps.1] at hm
            exact hkh kv hm
          · intro kv hm
            rw [hmaps.2] at hm
            exact hkl kv hm
          · intro f hm
            rcases setEvictable_true_mem s.replacer fr _ hm with hm2 | hm2
            · exact hkf f hm2
            · rw [hm2]
              exact hfr
        · rw [if_neg hz]
          refine ⟨?_, hnd, hfre, hkh, hkl, hkf, htv⟩
          intro f hf hp hm
          by_cases hfq : fr.toNat = f
          · subst hfq
            have hf3 : fr.toNat < (s.pages.set fr.toNat _).length := hf
            rw [List.length_set] at hf3
            exact hpe fr.toNat hf3 (not_le.mp hle) hm
          · have hp3 : 0 < ((s.pages.set fr.toNat { getPage s fr with pin_count := (getPage s fr).pin_count - 1, is_dirty := (getPage s fr).is_dirty || d }).getD f defaultPage).pin_count := hp
            rw [getD_set_page, if_neg (fun hc => hfq hc.1)] at hp3
            have hf3 : f < (s.pages.set fr.toNat _).length := hf
            rw [List.length_set] at hf3
            exact hpe f hf3 hp3 hm

theorem flushPage_c2 (h : Int → Nat) (s : BPM) (pid : Int)
    (hInv : C2Inv s) : C2Inv (flushPage h s pid).2 := by
  cases hfind : tableFind h s.page_table pid with
  | none =>
      have he : flushPage h s pid = (false, s) := by
        unfold flushPage
        rw [hfind]
      rw [he]
      exact hInv
  | some fr =>
      have he : flushPage h s pid =
          (true, setPage (writePage s pid (getPage s fr).data) fr
            { getPage s fr with is_dirty := false }) := by
        unfold flushPage
        rw [hfind]
      rw [he]
      refine c2inv_of_components s _ hInv ?_ ?_ (shrinks_refl _) (fun f hm => hm)
        hInv.2.2.2.2.2.2
      · show (s.pages.set fr.toNat _).length = s.pages.length
        exact List.length_set _ _ _
      · intro f
        show ((s.pages.set fr.toNat _).getD f defaultPage).pin_count = _
        rw [getD_set_page]
        by_cases hc : fr.toNat = f ∧ fr.toNat < s.pages.length
        · rw [if_pos hc, ← hc.1]
          rfl
        · rw [if_neg hc]

theorem flushAll_fold (l : List Nat) (s : BPM) :
    (l.foldl (fun s2 i =>
      let page := getPage s2 (Int.ofNat i)
      if page.page_id = INVALID_PAGE_ID then s2
      else setPage (writePage s2 page.page_id page.data) (Int.ofNat i)
             { page with is_dirty := false }) s).replacer = s.replacer ∧
    (l.foldl (fun s2 i =>
      let page := getPage s2 (Int.ofNat i)
      if page.page_id = INVALID_PAGE_ID then s2
      else setPage (writePage s2 page.page_id page.data) (Int.ofNat i)
             { page with is_dirty := false }) s).page_table = s.page_table ∧
    (l.foldl (fun s2 i =>
      let page := getPage s2 (Int.ofNat i)
      if page.page_id = INVALID_PAGE_ID then s2
      else setPage (writePage s2 page.page_id page.data) (Int.ofNat i)
             { page with is_dirty := false }) s).free_list = s.free_list ∧
    (l.foldl (fun s2 i =>
      let page := getPage s2 (Int.ofNat i)
      if page.page_id = INVALID_PAGE_ID then s2
      else setPage (writePage s2 page.page_id page.data) (Int.ofNat i)
             { page with is_dirty := false }) s).pages.length = s.pages.length ∧
    (∀ f : Nat, ((l.foldl (fun s2 i =>
      let page := getPage s2 (Int.ofNat i)
      if page.page_id = INVALID_PAGE_ID then s2
      else setPage (writePage s2 page.page_id page.data) (Int.ofNat i)
             { page with is_dirty := false }) s).pages.getD f defaultPage).pin_count =
      (s.pages.getD f defaultPage).pin_count) := by
  induction l generalizing s with
  | nil => exact ⟨rfl, rfl, rfl, rfl, fun _ => rfl⟩
  | cons i rest ih =>
      simp only [List.foldl_cons]
      by_cases hc : (getPage s (Int.ofNat i)).page_id = INVALID_PAGE_ID
      · rw [if_pos hc]
        exact ih s
      · rw [if_neg hc]
        obtain ⟨h1, h2, h3, h4, h5⟩ := ih (setPage (writePage s (getPage s (Int.ofNat i)).page_id
          (getPage s (Int.ofNat i)).data) (Int.ofNat i)
          { getPage s (Int.ofNat i) with is_dirty := false })
        refine ⟨h1, h2, h3, ?_, ?_⟩
        · rw [h4]
          show (s.pages.set (Int.ofNat i).toNat _).length = s.pages.length
          exact List.length_set _ _ _
        · intro f
          rw [h5]
          show ((s.pages.set (Int.ofNat i).toNat _).getD f defaultPage).pin_count = _
          rw [getD_set_page]
          by_cases hc2 : (Int.ofNat i).toNat = f ∧ (Int.ofNat i).toNat < s.pages.length
          · rw [if_pos hc2, ← hc2.1]
            rfl
          · rw [if_neg hc2]

theorem flushAll_c2 (s : BPM) (hInv : C2Inv s) : C2Inv (flushAll s) := by
  obtain ⟨h1, h2, h3, h4, h5⟩ := flushAll_fold (List.range s.pool_size) s
  have h1b : (flushAll s).replacer = s.replacer := h1
  have h2b : (flushAll s).page_table = s.page_table := h2
  have h3b : (flushAll s).free_list = s.free_list := h3
  have h4b : (flushAll s).pages.length = s.pages.length := h4
  have h5b : ∀ f : Nat, ((flushAll s).pages.getD f defaultPage).pin_count =
      (s.pages.getD f defaultPage).pin_count := h5
  refine c2inv_of_components s (flushAll s) hInv h4b h5b ?_ ?_ ?_
  · rw [h1b]
    exact shrinks_refl _
  · intro f hm
    rw [h3b] at hm
    exact hm
  · rw [h2b]
    exact hInv.2.2.2.2.2.2

theorem deletePage_c2 (h : Int → Nat) (s : BPM) (pid : Int)
    (hInv : C2Inv s) : C2Inv (deletePage h s pid).2 := by
  cases hfind : tableFind h s.page_table pid with
  | none =>
      rw [deletePage_absent h s pid hfind]
      exact hInv
  | some fr =>
      have hfr : 0 ≤ fr := tableFind_val_nonneg h s.page_table pid fr hInv.2.2.2.2.2.2 hfind
      by_cases hp : 0 < (getPage s fr).pin_count
      · rw [deletePage_pinned h s pid fr hfind hp]
        exact hInv
      · obtain ⟨hpe, hnd, hfre, hkh, hkl, hkf, htv⟩ := hInv
        have hcommon : ∀ (pgs : List Page) (dsk wrt : List (Int × Nat)),
            pgs.length = s.pages.length →
            (∀ f : Nat, f ≠ fr.toNat →
              (pgs.getD f defaultPage).pin_count = (s.pages.getD f defaultPage).pin_count) →
            (∀ f : Nat, f = fr.toNat → (pgs.getD f defaultPage).pin_count = 0) →
            C2Inv { pool_size := s.pool_size,
                    pages := pgs,
                    page_table := (tableRemove h s.page_table pid).2,
                    replacer := removeFrame s.replacer fr,
                    free_list := s.free_list ++ [fr],
                    next_page_id := s.next_page_id,
                    disk := dsk,
                    writes := wrt } := by
          intro pgs dsk wrt hlen hpin hzero
          refine ⟨?_, hnd.erase fr, ?_, ?_, ?_, ?_, tableRemove_tvn h s.page_table pid htv⟩
          · intro f hf hpf hm
            by_cases hfq : f = fr.toNat
            · rw [hzero f hfq] at hpf
              exact absurd hpf (lt_irrefl 0)
            · have hf2 : f < s.pages.length := hlen ▸ hf
              rw [hpin f hfq] at hpf
              exact hpe f hf2 hpf (List.mem_of_mem_erase hm)
          · intro f hm
            rcases List.mem_append.mp hm with h2 | h2
            · exact hfre f h2
            · rw [List.mem_singleton.mp h2]
              exact hfr
          · intro kv hm
            exact hkh kv (mem_aerase hm)
          · intro kv hm
            exact hkl kv (mem_aerase hm)
          · intro f hm
            exact hkf f (List.mem_of_mem_erase hm)
        by_cases hd : (getPage s fr).is_dirty = true
        · rw [deletePage_unpinned_dirty h s pid fr hfind hp hd]
          refine hcommon _ _ _ ?_ ?_ ?_
          · rw [List.length_set, List.length_set]
          · intro f hfq
            rw [getD_set_page, if_neg (fun hc => hfq hc.1.symm)]
            rw [getD_set_page, if_neg (fun hc => hfq hc.1.symm)]
          · intro f hfq
            subst hfq
            rw [getD_set_page]
            by_cases hlt : fr.toNat < s.pages.length
            · rw [if_pos (And.intro rfl (by rw [List.length_set]; exact hlt))]
              rfl
            · rw [if_neg (fun hc => hlt (by rw [← List.length_set s.pages fr.toNat
                { getPage s fr with is_dirty := false }]; exact hc.2))]
              rw [getD_set_page, if_neg (fun hc => hlt hc.2)]
              rw [List.getD_eq_default _ _ (not_lt.mp hlt)]
              rfl
        · have hdf : (getPage s fr).is_dirty = false := by
            cases hb : (getPage s fr).is_dirty
            · rfl
            · exact absurd hb hd
          rw [deletePage_unpinned_clean h s pid fr hfind hp hdf]
          refine hcommon _ _ _ ?_ ?_ ?_
          · rw [List.length_set]
          · intro f hfq
            rw [getD_set_page, if_neg (fun hc => hfq hc.1.symm)]
          · intro f hfq
            subst hfq
            rw [getD_set_page]
            by_cases hlt : fr.toNat < s.pages.length
            · rw [if_pos (And.intro rfl hlt)]
              rfl
            · rw [if_neg (fun hc => hlt hc.2)]
              rw [List.getD_eq_default _ _ (not_lt.mp hlt)]
              rfl

theorem applyMOp_c2 (h : Int → Nat) (s s2 : BPM) (op : MOp) (hInv : C2Inv s)
    (hrun : applyMOp h s op = some s2) : C2Inv s2 := by
  cases op with
  | newP fuel =>
      cases hnp : newPage h fuel s with
      | none =>
          have h2 : applyMOp h s (MOp.newP fuel) = none := by
            show (newPage h fuel s).map Prod.snd = none
            rw [hnp]
            rfl
          rw [h2] at hrun
          exact Option.noConfusion hrun
      | some res =>
          have h2 : applyMOp h s (MOp.newP fuel) = some res.2 := by
            show (newPage h fuel s).map Prod.snd = some res.2
            rw [hnp]
            rfl
          rw [h2] at hrun
          rw [← Option.some.inj hrun]
          exact newPage_c2 h fuel s res hInv hnp
  | fetch fuel pid =>
      cases hfp : fetchPage h fuel s pid with
      | none =>
          have h2 : applyMOp h s (MOp.fetch fuel pid) = none := by
            show (fetchPage h fuel s pid).map Prod.snd = none
            rw [hfp]
            rfl
          rw [h2] at hrun
          exact Option.noConfusion hrun
      | some res =>
          have h2 : applyMOp h s (MOp.fetch fuel pid) = some res.2 := by
            show (fetchPage h fuel s pid).map Prod.snd = some res.2
            rw [hfp]
            rfl
          rw [h2] at hrun
          rw [← Option.some.inj hrun]
          exact fetchPage_c2 h fuel s pid res hInv hfp
  | unpin pid d =>
      have h2 : (unpinPage h s pid d).2 = s2 := Option.some.inj hrun
      rw [← h2]
      exact unpinPage_c2 h s pid d hInv
  | flush pid =>
      have h2 : (flushPage h s pid).2 = s2 := Option.some.inj hrun
      rw [← h2]
      exact flushPage_c2 h s pid hInv
  | flushAllOp =>
      have h2 : flushAll s = s2 := Option.some.inj hrun
      rw [← h2]
      exact flushAll_c2 s hInv
  | del pid =>
      have h2 : (deletePage h s pid).2 = s2 := Option.some.inj hrun
      rw [← h2]
      exact deletePage_c2 h s pid hInv

theorem runBPM_c2_aux (h : Int → Nat) (ops : List MOp) (acc : Option BPM)
    (hacc : ∀ s0, acc = some s0 → C2Inv s0) :
    ∀ s, ops.foldl (fun acc2 op => acc2.bind (fun s0 => applyMOp h s0 op)) acc = some s →
      C2Inv s := by
  induction ops generalizing acc with
  | nil =>
      intro s hs
      exact hacc s hs
  | cons op rest ih =>
      intro s hs
      simp only [List.foldl_cons] at hs
      refine ih (acc.bind (fun s0 => applyMOp h s0 op)) ?_ s hs
      intro s0 h0
      cases hacc2 : acc with
      | none =>
          rw [hacc2] at h0
          exact Option.noConfusion h0
      | some s1 =>
          rw [hacc2] at h0
          have h1 : applyMOp h s1 op = some s0 := h0
          exact applyMOp_c2 h s1 s0 op (hacc s1 hacc2) h1

theorem mkBPM_c2 (ps k : Nat) : C2Inv (mkBPM ps k) := by
  refine ⟨?_, List.nodup_nil, ?_, ?_, ?_, ?_, ?_⟩
  · intro f hf hp hm
    exact (List.not_mem_nil (Int.ofNat f)) hm
  · intro f hm
    have hm2 : f ∈ (List.range ps).map Int.ofNat := hm
    rcases List.mem_map.mp hm2 with ⟨n, _, hne⟩
    rw [← hne]
    exact Int.ofNat_nonneg n
  · intro kv hm
    exact absurd hm (List.not_mem_nil kv)
  · intro kv hm
    exact absurd hm (List.not_mem_nil kv)
  · intro f hm
    exact absurd hm (List.not_mem_nil f)
  · intro b hb kv hkv
    have hb2 : b = emptyBucket := List.mem_singleton.mp hb
    rw [hb2] at hkv
    exact absurd hkv (List.not_mem_nil kv)

/-- C2: after any sequence of manager operations (`NewPage`,
`FetchPage`, `UnpinPage`, `FlushPage`, `FlushAllPages`, `DeletePage`)
starting from a fresh buffer pool, every frame whose `pin_count` is
greater than `0` is not evictable in the replacer. -/
theorem runBPM_pin_evict (h : Int → Nat) (ps k : Nat) (ops : List MOp) (s : BPM)
    (hrun : runBPM h ps k ops = some s) : PinEvictInv s := by
  refine (runBPM_c2_aux h ops (some (mkBPM ps k)) ?_ s hrun).1
  intro s0 h0
  rw [← Option.some.inj h0]
  exact mkBPM_c2 ps k

/-- Witness for `runBPM_pin_evict`: the two-operation run
`NewPage; UnpinPage(0, true)` from a fresh 2-frame pool reaches `c8s`,
where the pinned-frames-are-not-evictable property holds. -/
theorem runBPM_pin_evict_witness :
    runBPM idHash 2 2 [MOp.newP 9, MOp.unpin 0 true] = some c8s ∧ PinEvictInv c8s :=
  ⟨by decide, runBPM_pin_evict idHash 2 2 [MOp.newP 9, MOp.unpin 0 true] c8s (by decide)⟩

end DBModel
